import Mathlib

/-!
Verification of the version-specifier resolution engine of `find-packages.js`.

The definitions below are a shallow embedding of the JavaScript source:
pure functions over `List Char` / `String`, with `Number.parseInt` modelled
as the exact digit-string value rounded to IEEE double precision
(`roundToDouble`, so values above `2^53` collapse exactly as in the host),
fallible parsing modelled with `Except`/`Option`, the module-level warning
set modelled by explicit state passing, and the host's locale-dependent
`localeCompare` collation passed in as an explicit parameter wherever the
source calls it.
-/

namespace FindPackages

/-- The whitespace set of `String.prototype.trim` and of `\s` in the
source's regexes: tab, line feed, vertical tab, form feed, carriage return,
space, no-break space, the Unicode space separators (category Zs), the line
and paragraph separators, and the byte-order mark. -/
def isWsChar (c : Char) : Bool :=
  c = ' ' || c = '\t' || c = '\n' || c = '\r' || c.toNat = 11 || c.toNat = 12 ||
  c.toNat = 0xA0 || c.toNat = 0x1680 ||
  (0x2000 ≤ c.toNat && c.toNat ≤ 0x200A) ||
  c.toNat = 0x2028 || c.toNat = 0x2029 || c.toNat = 0x202F ||
  c.toNat = 0x205F || c.toNat = 0x3000 || c.toNat = 0xFEFF

def trimLeftChars (l : List Char) : List Char := l.dropWhile isWsChar

def trimRightChars (l : List Char) : List Char := (l.reverse.dropWhile isWsChar).reverse

def jsTrimChars (l : List Char) : List Char := trimRightChars (trimLeftChars l)

/-- `String.prototype.trim`. -/
def jsTrim (s : String) : String := String.mk (jsTrimChars s.data)

def isDigitChar (c : Char) : Bool := '0' ≤ c && c ≤ '9'

def digitVal (c : Char) : Nat := c.toNat - '0'.toNat

/-- The exact mathematical value of a digit string. `Number.parseInt` does
NOT return this value exactly: it returns the nearest IEEE double (see
`jsParseInt` below). -/
def digitsToNat (l : List Char) : Nat := l.foldl (fun acc c => acc * 10 + digitVal c) 0

def bitLenAux : Nat → Nat → Nat
  | 0, _ => 0
  | fuel + 1, n => if n = 0 then 0 else bitLenAux fuel (n / 2) + 1

/-- The number of binary digits of `n` (`0` for `0`); the fuel `n` bounds
the recursion depth, which is at most `n` halvings. -/
def bitLen (n : Nat) : Nat := bitLenAux n n

/-- Rounding of a nonnegative integer to the nearest IEEE-754 double
(binary64): exact below `2^53`, otherwise round-to-nearest at 53 bits of
precision with ties to even, overflowing to Infinity at `2^1024`. Every
finite double produced this way is an integer below `2^1024`, so mapping
Infinity to `2^1024` itself preserves every `<` / `=` comparison between
two rounded values. -/
def roundToDouble (n : Nat) : Nat :=
  if n < 2 ^ 53 then n
  else
    let ulp := 2 ^ (bitLen n - 53)
    let q := n / ulp
    let r := n % ulp
    let q2 := if ulp < r * 2 ∨ (r * 2 = ulp ∧ q % 2 = 1) then q + 1 else q
    let v := q2 * ulp
    if 2 ^ 1024 ≤ v then 2 ^ 1024 else v

/-- `Number.parseInt(s, 10)` on an all-digit string: the exact value of the
digits rounded to double precision (ECMA-262 StringToNumber rounding). -/
def jsParseInt (l : List Char) : Nat := roundToDouble (digitsToNat l)

/-- `s.split(sep)` for a single-character separator: keeps empty segments. -/
def splitOnChar (sep : Char) : List Char → List (List Char)
  | [] => [[]]
  | c :: rest =>
    if c = sep then [] :: splitOnChar sep rest
    else
      match splitOnChar sep rest with
      | [] => [[c]]
      | seg :: segs => (c :: seg) :: segs

def wordsByAux (sep : Char → Bool) : List Char → List Char → List (List Char)
  | cur, [] => if cur.isEmpty then [] else [cur.reverse]
  | cur, c :: rest =>
    if sep c then
      if cur.isEmpty then wordsByAux sep [] rest
      else cur.reverse :: wordsByAux sep [] rest
    else wordsByAux sep (c :: cur) rest

/-- `s.split(re).filter(Boolean)` for a character-class separator:
the maximal runs of non-separator characters. -/
def wordsBy (sep : Char → Bool) (l : List Char) : List (List Char) :=
  wordsByAux sep [] l

/-- `s.indexOf(ch)`-based split: the part before the first occurrence and
the part after it, or `none` when the character does not occur. -/
def splitFirstChar (ch : Char) : List Char → Option (List Char × List Char)
  | [] => none
  | c :: rest =>
    if c = ch then some ([], rest)
    else (splitFirstChar ch rest).map (fun p => (c :: p.1, p.2))

/-- `s.lastIndexOf(ch)`-based split: the part before the last occurrence and
the part after it, or `none` when the character does not occur. -/
def splitLastChar (ch : Char) : List Char → Option (List Char × List Char)
  | [] => none
  | c :: rest =>
    match splitLastChar ch rest with
    | some p => some (c :: p.1, p.2)
    | none => if c = ch then some ([], rest) else none

/-- `s.split("||")`: scans left to right, consuming the two-character
separator at each first match. -/
def splitOnPipes : List Char → List (List Char)
  | [] => [[]]
  | '|' :: '|' :: rest => [] :: splitOnPipes rest
  | c :: rest =>
    match splitOnPipes rest with
    | [] => [[c]]
    | seg :: segs => (c :: seg) :: segs

def jsToLowerChar (c : Char) : Char :=
  if 'A' ≤ c ∧ c ≤ 'Z' then Char.ofNat (c.toNat + 32) else c

/-- `String.prototype.toLowerCase` (ASCII; only ASCII tokens reach it here). -/
def jsToLower (s : String) : String := String.mk (s.data.map jsToLowerChar)

def hasPrefixChars : List Char → List Char → Bool
  | [], _ => true
  | _ :: _, [] => false
  | p :: ps, c :: cs => decide (p = c) && hasPrefixChars ps cs

/-- `s.startsWith(pre)`. -/
def jsStartsWith (s pre : String) : Bool := hasPrefixChars pre.data s.data

/-- `s.slice(n)`: drop the first `n` characters. -/
def dropCount (n : Nat) (s : String) : String := String.mk (s.data.drop n)

/-! ## The Version Parser (`parseSemver`) -/

structure SemVersion where
  major : Nat
  minor : Nat
  patch : Nat
  prerelease : List String
  build : List String
  raw : String
deriving DecidableEq, Repr

/-- One optional `(?:\.(\d+))?` group of the `parseSemver` regex: a dot
followed by one or more digits, consumed greedily, else nothing; the
group's value is `Number.parseInt` of its digits. -/
def takeNumGroup (l : List Char) : Option Nat × List Char :=
  match l with
  | '.' :: rest =>
    let ds := rest.takeWhile isDigitChar
    if ds.isEmpty then (none, '.' :: rest)
    else (some (jsParseInt ds), rest.dropWhile isDigitChar)
  | other => (none, other)

/-- Characters of the prerelease/build character class `[0-9A-Za-z.-]`. -/
def isIdentSetChar (c : Char) : Bool :=
  isDigitChar c || ('A' ≤ c && c ≤ 'Z') || ('a' ≤ c && c ≤ 'z') || c = '.' || c = '-'

/-- One optional `(?:X([0-9A-Za-z.-]+))?` group of the `parseSemver` regex,
where `X` is the marker character (`-` or `+`). -/
def takeTagGroup (mark : Char) (l : List Char) : Option (List Char) × List Char :=
  match l with
  | [] => (none, [])
  | c :: rest =>
    if c = mark then
      let ds := rest.takeWhile isIdentSetChar
      if ds.isEmpty then (none, c :: rest)
      else (some ds, rest.dropWhile isIdentSetChar)
    else (none, c :: rest)

/-- `pre.split(/[.-]/).filter(Boolean)`. -/
def splitIdentifiers (l : List Char) : List String :=
  (wordsBy (fun c => c = '.' || c = '-') l).map String.mk

/-- The Version Parser: `parseSemver` of the source, matching the anchored
regex `^v?(\d+)(?:\.(\d+))?(?:\.(\d+))?(?:-([0-9A-Za-z.-]+))?(?:\+([0-9A-Za-z.-]+))?$`
(whose greedy matching is deterministic because the groups' character sets
are disjoint from their delimiters); the numeric components are converted
with `Number.parseInt`, hence rounded to double precision. The source
memoizes results in a module-level cache; the function is pure, so the
cache is dropped. -/
def parseSemver (version : String) : Option SemVersion :=
  let trimmed := jsTrimChars version.data
  let l := match trimmed with
    | 'v' :: rest => rest
    | other => other
  let ds := l.takeWhile isDigitChar
  if ds.isEmpty then none
  else
    let r0 := l.dropWhile isDigitChar
    let (minorPart, r1) := takeNumGroup r0
    let (patchPart, r2) := takeNumGroup r1
    let (prePart, r3) := takeTagGroup '-' r2
    let (buildPart, r4) := takeTagGroup '+' r3
    if r4.isEmpty then
      some {
        major := jsParseInt ds
        minor := minorPart.getD 0
        patch := patchPart.getD 0
        prerelease := match prePart with | some p => splitIdentifiers p | none => []
        build := match buildPart with | some b => splitIdentifiers b | none => []
        raw := String.mk trimmed }
    else none

def cloneVersion (v : SemVersion) : SemVersion := v

/-! ## The comparison used by the Satisfaction Evaluator and the Matcher -/

/-- Ordering on `List Char` induced by the host's code-unit comparison
`a < b` on strings. -/
def cmpChar (a b : Char) : Ordering :=
  if a < b then .lt else if b < a then .gt else .eq

/-- Lexicographic list comparison (a proper prefix sorts lower), generic in
the element comparison. -/
def cmpListWith {α : Type} (c : α → α → Ordering) : List α → List α → Ordering
  | [], [] => .eq
  | [], _ :: _ => .lt
  | _ :: _, [] => .gt
  | a :: as, b :: bs =>
    match c a b with
    | .eq => cmpListWith c as bs
    | o => o

def cmpCharList (a b : List Char) : Ordering := cmpListWith cmpChar a b

/-- JavaScript string comparison `a < b`. -/
def jsStringLt (a b : String) : Bool := cmpCharList a.data b.data = Ordering.lt

/-- `/^\d+$/.test(s)`. -/
def isNumericId (s : String) : Bool := !s.data.isEmpty && s.data.all isDigitChar

/-- `compareIdentifiers` of the source (single prerelease identifiers):
numeric identifiers compare by their `Number.parseInt` value — a double, so
distinct digit strings whose doubles coincide compare equal. -/
def compareIdentifiers (a b : String) : Int :=
  if a = b then 0
  else if isNumericId a && isNumericId b then
    let aInt := jsParseInt a.data
    let bInt := jsParseInt b.data
    if aInt = bInt then 0 else if aInt < bInt then -1 else 1
  else if isNumericId a then -1
  else if isNumericId b then 1
  else if jsStringLt a b then -1 else 1

/-- The identifier loop of `compareSemver`: pairwise left-to-right, and the
side exhausted first (`aId == null` / `bId == null`) sorts lower. -/
def comparePrereleaseLists : List String → List String → Int
  | [], [] => 0
  | [], _ :: _ => -1
  | _ :: _, [] => 1
  | a :: as, b :: bs =>
    let c := compareIdentifiers a b
    if c = 0 then comparePrereleaseLists as bs else c

/-- The prerelease part of `compareSemver`: no prerelease sorts above any
prerelease; otherwise the pairwise loop decides. -/
def comparePre : List String → List String → Int
  | [], [] => 0
  | [], _ :: _ => 1
  | _ :: _, [] => -1
  | a, b => comparePrereleaseLists a b

/-- `compareSemver` of the source. -/
def compareSemver (a b : SemVersion) : Int :=
  if a.major ≠ b.major then (if a.major < b.major then -1 else 1)
  else if a.minor ≠ b.minor then (if a.minor < b.minor then -1 else 1)
  else if a.patch ≠ b.patch then (if a.patch < b.patch then -1 else 1)
  else comparePre a.prerelease b.prerelease

/-! ## The Specifier Compiler -/

/-- `isWildcardToken` of the source. -/
def isWildcardToken (token : String) : Bool :=
  if token = "" then false
  else
    let lower := jsToLower token
    lower == "*" || lower == "x"

structure TokenInfo where
  any : Bool
  precision : Nat
  wildcardMinor : Bool
  wildcardPatch : Bool
  version : SemVersion
deriving DecidableEq, Repr

/-- The `{ any: true, raw }` result of `parseVersionToken`; the JS object
carries no further fields, whose Lean counterparts are defaulted and never
read behind `any = true`. -/
def anyTokenInfo (trimmed : String) : TokenInfo :=
  { any := true, precision := 0, wildcardMinor := false, wildcardPatch := false,
    version := { major := 0, minor := 0, patch := 0, prerelease := [], build := [],
                 raw := trimmed } }

/-- The `parsePart` closure of `parseVersionToken`: `Number.parseInt` of
one major/minor/patch segment plus its wildcard flag. -/
def parsePart (trimmed : String) (value : List Char) : Except String (Nat × Bool) :=
  if isWildcardToken (String.mk value) then .ok (0, true)
  else if !value.isEmpty && value.all isDigitChar then .ok (jsParseInt value, false)
  else .error ("invalid numeric value in \"" ++ trimmed ++ "\"")

/-- `Number.MAX_SAFE_INTEGER`; for a parsed nonnegative integral double,
`Number.isSafeInteger` is false exactly when it exceeds this bound. -/
def maxSafeInteger : Nat := 9007199254740991

/-- `parseVersionToken` of the source. -/
def parseVersionToken (raw : String) : Except String TokenInfo :=
  let trimmed := String.mk (jsTrimChars raw.data)
  if trimmed = "" then .error "empty version segment"
  else if isWildcardToken trimmed then .ok (anyTokenInfo trimmed)
  else
    let (base1, buildPart) :=
      match splitFirstChar '+' trimmed.data with
      | some p => (p.1, some p.2)
      | none => (trimmed.data, none)
    let (base, prePart) :=
      match splitFirstChar '-' base1 with
      | some p => (p.1, some p.2)
      | none => (base1, none)
    let rawParts := splitOnChar '.' base
    if 3 < rawParts.length then
      .error ("too many version segments in \"" ++ trimmed ++ "\"")
    else
      let precision := rawParts.length
      let p0 := rawParts.getD 0 []
      let p1 := rawParts.getD 1 ['0']
      let p2 := rawParts.getD 2 ['0']
      if isWildcardToken (String.mk p0) then .ok (anyTokenInfo trimmed)
      else do
        let (major, _) ← parsePart trimmed p0
        let (minor, wMinor0) ← parsePart trimmed p1
        let (patch, wPatch0) ← parsePart trimmed p2
        if maxSafeInteger < major then
          throw ("invalid major version in \"" ++ trimmed ++ "\"")
        if maxSafeInteger < minor then
          throw ("invalid minor version in \"" ++ trimmed ++ "\"")
        if maxSafeInteger < patch then
          throw ("invalid patch version in \"" ++ trimmed ++ "\"")
        let wildcardMinor := wMinor0 || precision == 1
        let wildcardPatch := if precision ≤ 2 then wPatch0 || precision == 2 else wPatch0
        let prerelease := match prePart with | some p => splitIdentifiers p | none => []
        let build := match buildPart with | some b => splitIdentifiers b | none => []
        return { any := false, precision, wildcardMinor, wildcardPatch,
                 version := { major, minor, patch, prerelease, build, raw := trimmed } }

/-- `` `${a}.${b}.${c}` `` raw strings built by the source. -/
def mmpRaw (a b c : Nat) : String :=
  toString a ++ "." ++ toString b ++ "." ++ toString c

/-- `normalizeBase` of the source. -/
def normalizeBase (version : SemVersion) (resetMinor resetPatch : Bool) : SemVersion :=
  let minor := if resetMinor then 0 else version.minor
  let patch := if resetPatch then 0 else version.patch
  { major := version.major, minor, patch, prerelease := [], build := [],
    raw := mmpRaw version.major minor patch }

/-- `incrementVersion` of the source. -/
def incrementVersion (version : SemVersion) (level : String) : SemVersion :=
  let v := normalizeBase version (level == "major") (level != "patch")
  if level == "major" then
    { major := v.major + 1, minor := 0, patch := 0, prerelease := [], build := [],
      raw := mmpRaw (v.major + 1) 0 0 }
  else if level == "minor" then
    { major := v.major, minor := v.minor + 1, patch := 0, prerelease := [], build := v.build,
      raw := mmpRaw v.major (v.minor + 1) 0 }
  else
    { major := v.major, minor := v.minor, patch := v.patch + 1, prerelease := [],
      build := v.build, raw := mmpRaw v.major v.minor (v.patch + 1) }

structure Comparator where
  op : String
  version : SemVersion
deriving DecidableEq, Repr

def createComparator (op : String) (version : SemVersion) : Comparator :=
  { op, version }

/-- `expandTilde` of the source. -/
def expandTilde (token : TokenInfo) : List Comparator :=
  if token.any then []
  else
    let base := cloneVersion token.version
    let lower := createComparator ">=" (normalizeBase base false false)
    let upperVersion :=
      if token.precision ≤ 1 then incrementVersion base "major"
      else incrementVersion base "minor"
    let upper := createComparator "<" (normalizeBase upperVersion false false)
    [lower, upper]

/-- `expandCaret` of the source. -/
def expandCaret (token : TokenInfo) : List Comparator :=
  if token.any then []
  else
    let base := cloneVersion token.version
    let lower := createComparator ">=" (normalizeBase base false false)
    let upperVersion : SemVersion :=
      if 0 < base.major then
        { major := base.major + 1, minor := 0, patch := 0, prerelease := [], build := [],
          raw := mmpRaw (base.major + 1) 0 0 }
      else if 0 < base.minor then
        { major := base.major, minor := base.minor + 1, patch := 0, prerelease := [],
          build := [], raw := mmpRaw base.major (base.minor + 1) 0 }
      else
        { major := base.major, minor := base.minor, patch := base.patch + 1,
          prerelease := [], build := [],
          raw := mmpRaw base.major base.minor (base.patch + 1) }
    let upper := createComparator "<" upperVersion
    [lower, upper]

/-- `expandBareVersion` of the source. -/
def expandBareVersion (token : TokenInfo) : List Comparator :=
  if token.any then []
  else
    let base := cloneVersion token.version
    if token.wildcardMinor || token.precision == 1 then
      [createComparator ">=" (normalizeBase base false true),
       createComparator "<"
         (normalizeBase
           { major := base.major + 1, minor := 0, patch := 0, prerelease := [], build := [],
             raw := mmpRaw (base.major + 1) 0 0 } false false)]
    else if token.wildcardPatch || token.precision == 2 then
      [createComparator ">=" (normalizeBase base false true),
       createComparator "<"
         (normalizeBase
           { major := base.major, minor := base.minor + 1, patch := 0, prerelease := [],
             build := [], raw := mmpRaw base.major (base.minor + 1) 0 } false false)]
    else [createComparator "=" (normalizeBase base false false)]

/-- `comparatorFromOperator` of the source. -/
def comparatorFromOperator (op : String) (token : TokenInfo) : List Comparator :=
  if token.any then []
  else [createComparator op (normalizeBase token.version false false)]

/-- `hyphenComparators` of the source. -/
def hyphenComparators (aToken bToken : TokenInfo) : List Comparator :=
  if aToken.any && bToken.any then []
  else
    let lowerPart :=
      if !aToken.any then
        [createComparator ">=" (normalizeBase aToken.version false false)]
      else []
    let upperPart :=
      if !bToken.any then
        if bToken.precision == 1 || bToken.wildcardMinor then
          [createComparator "<"
            (normalizeBase
              { major := bToken.version.major + 1, minor := 0, patch := 0, prerelease := [],
                build := [], raw := mmpRaw (bToken.version.major + 1) 0 0 } false false)]
        else if bToken.precision == 2 || bToken.wildcardPatch then
          [createComparator "<"
            (normalizeBase
              { major := bToken.version.major, minor := bToken.version.minor + 1, patch := 0,
                prerelease := [], build := [],
                raw := mmpRaw bToken.version.major (bToken.version.minor + 1) 0 } false false)]
        else
          [createComparator "<=" (normalizeBase bToken.version false false)]
      else []
    lowerPart ++ upperPart

/-- `parseComparatorToken` of the source: first matching operator of
the ordered list `[">=", "<=", ">", "<", "=", "^", "~"]` is stripped,
the remaining token parsed, wildcard tokens yield no comparator, and the
operator dispatches the expansion. -/
def parseComparatorToken (token : String) : Except String (List Comparator) :=
  let trimmed := jsTrim token
  if trimmed = "" then .ok []
  else
    let (op, rest) :=
      if jsStartsWith trimmed ">=" then (">=", jsTrim (dropCount 2 trimmed))
      else if jsStartsWith trimmed "<=" then ("<=", jsTrim (dropCount 2 trimmed))
      else if jsStartsWith trimmed ">" then (">", jsTrim (dropCount 1 trimmed))
      else if jsStartsWith trimmed "<" then ("<", jsTrim (dropCount 1 trimmed))
      else if jsStartsWith trimmed "=" then ("=", jsTrim (dropCount 1 trimmed))
      else if jsStartsWith trimmed "^" then ("^", jsTrim (dropCount 1 trimmed))
      else if jsStartsWith trimmed "~" then ("~", jsTrim (dropCount 1 trimmed))
      else ("", trimmed)
    do
      let tokenInfo ← parseVersionToken rest
      if tokenInfo.any then return []
      else
        match op with
        | "^" => return expandCaret tokenInfo
        | "~" => return expandTilde tokenInfo
        | ">=" | "<=" | ">" | "<" | "=" => return comparatorFromOperator op tokenInfo
        | "" => return expandBareVersion tokenInfo
        | _ => .error ("unsupported range operator \"" ++ op ++ "\"")

structure RangeSet where
  comparators : List Comparator
deriving DecidableEq, Repr

/-- The tail of the hyphen-range regex `/^(.*)\s+-\s+(.*)$/` after the first
capture group: one or more whitespace characters, a hyphen, one or more
whitespace characters (both runs maximal, as the greedy matcher settles),
and the second capture group. -/
def matchHyphenRest (rest : List Char) : Option (List Char) :=
  let w1 := rest.takeWhile isWsChar
  let r1 := rest.dropWhile isWsChar
  if w1.isEmpty then none
  else
    match r1 with
    | '-' :: r2 =>
      let w2 := r2.takeWhile isWsChar
      if w2.isEmpty then none else some (r2.dropWhile isWsChar)
    | _ => none

def hyphenSplitAt (l : List Char) (a : Nat) : Option (List Char × List Char) :=
  (matchHyphenRest (l.drop a)).map (fun b => (l.take a, b))

def hyphenSplitSearch (l : List Char) : Nat → Option (List Char × List Char)
  | 0 => hyphenSplitAt l 0
  | n + 1 =>
    match hyphenSplitAt l (n + 1) with
    | some r => some r
    | none => hyphenSplitSearch l n

/-- `part.match(/^(.*)\s+-\s+(.*)$/)`: the greedy first group takes the
longest prefix whose remainder matches, so split points are searched from
the right. -/
def hyphenSplit (l : List Char) : Option (List Char × List Char) :=
  hyphenSplitSearch l l.length

/-- One OR-part of `buildRangeSets`: hyphen-range form, or
whitespace-separated comparator tokens. -/
def parseRangeSetPart (part : String) : Except String RangeSet :=
  match hyphenSplit part.data with
  | some p => do
    let fromToken ← parseVersionToken (String.mk p.1)
    let toToken ← parseVersionToken (String.mk p.2)
    return { comparators := hyphenComparators fromToken toToken }
  | none =>
    let tokens := wordsBy isWsChar part.data
    if tokens.isEmpty then pure { comparators := [] }
    else do
      let comparatorLists ← tokens.mapM (fun t => parseComparatorToken (String.mk t))
      return { comparators := comparatorLists.flatten }

/-- `buildRangeSets` of the source. -/
def buildRangeSets (raw : String) : Except String (List RangeSet) :=
  let orParts := ((splitOnPipes raw.data).map jsTrimChars).filter (fun p => !p.isEmpty)
  if orParts.isEmpty then .error "empty range expression"
  else orParts.mapM (fun part => parseRangeSetPart (String.mk part))

structure VRange where
  type : String
  raw : Option String
  sets : List RangeSet
  exactVersion : Option String
deriving DecidableEq, Repr

def rangeWarningMessage (trimmed msg : String) : String :=
  "Warning: could not parse version range \"" ++ trimmed ++ "\": " ++ msg

/-- `parseVersionRange` of the source, with the module-level deduplicated
warning collection (`versionRangeWarningSet` / `versionRangeWarnings`,
kept in sync by the source) passed as explicit state. Structural parse
errors never escape: they degrade the result to `type = "literal"`. -/
def parseVersionRangeW (raw : Option String) (warnings : List String) :
    VRange × List String :=
  match raw with
  | none => ({ type := "any", raw := none, sets := [], exactVersion := none }, warnings)
  | some r =>
    let trimmed := jsTrim r
    if trimmed = "" || isWildcardToken trimmed then
      ({ type := "any", raw := if trimmed = "" then none else some trimmed,
         sets := [], exactVersion := none }, warnings)
    else
      match buildRangeSets trimmed with
      | .ok sets =>
        if sets.all (fun s => s.comparators.isEmpty) then
          ({ type := "any", raw := some trimmed, sets, exactVersion := none }, warnings)
        else
          match sets with
          | [⟨[c]⟩] =>
            if c.op = "=" then
              ({ type := "exact", raw := some trimmed, sets,
                 exactVersion := some c.version.raw }, warnings)
            else
              ({ type := "range", raw := some trimmed, sets, exactVersion := none }, warnings)
          | _ =>
            ({ type := "range", raw := some trimmed, sets, exactVersion := none }, warnings)
      | .error msg =>
        let message := rangeWarningMessage trimmed msg
        if message ∈ warnings then
          ({ type := "literal", raw := some trimmed, sets := [], exactVersion := none },
           warnings)
        else
          ({ type := "literal", raw := some trimmed, sets := [], exactVersion := none },
           warnings ++ [message])

/-- `parseVersionRange` as its callers see it: the warning state does not
influence the returned range. -/
def parseVersionRange (raw : Option String) : VRange :=
  (parseVersionRangeW raw []).1

/-- The recorded warnings after compiling the same specifier `n` times in a
run that starts with no warnings. -/
def iterCompileWarnings (raw : String) : Nat → List String
  | 0 => []
  | n + 1 => (parseVersionRangeW (some raw) (iterCompileWarnings raw n)).2

/-! ## The Satisfaction Evaluator -/

/-- `satisfiesComparator` of the source. -/
def satisfiesComparator (version : SemVersion) (comparator : Comparator) : Bool :=
  let cmp := compareSemver version comparator.version
  match comparator.op with
  | "=" => cmp == 0
  | ">" => decide (0 < cmp)
  | ">=" => decide (0 ≤ cmp)
  | "<" => decide (cmp < 0)
  | "<=" => decide (cmp ≤ 0)
  | _ => false

/-- `satisfiesRange` of the source. -/
def satisfiesRange (versionString : String) (range : VRange) : Bool :=
  if range.type == "any" then true
  else if range.type == "literal" then range.raw == some versionString
  else
    match parseSemver versionString with
    | none => false
    | some parsed =>
      if range.sets.isEmpty then true
      else
        range.sets.any (fun set =>
          if set.comparators.isEmpty then true
          else set.comparators.all (fun comp => satisfiesComparator parsed comp))

/-! ## The requested-package list (`parseSpec`) -/

structure SpecReq where
  name : String
  version : Option String
  range : Option VRange
deriving DecidableEq, Repr

/-- `parseSpec` of the source: blank lines, `#`-comments and `---` yield no
request; a last `@` at a positive index splits name from version. -/
def parseSpec (line : String) : Option SpecReq :=
  let s := jsTrim line
  if s = "" || jsStartsWith s "#" || s = "---" then none
  else
    match splitLastChar '@' s.data with
    | some p =>
      if p.1.isEmpty then
        some { name := s, version := none, range := some (parseVersionRange none) }
      else
        let name := String.mk p.1
        let version := jsTrim (String.mk p.2)
        if version = "" then
          some { name, version := none, range := some (parseVersionRange none) }
        else
          some { name, version := some version,
                 range := some (parseVersionRange (some version)) }
    | none => some { name := s, version := none, range := some (parseVersionRange none) }

/-- `specKey` of the source (a falsy — absent or empty — version yields the
bare name). -/
def specKey (spec : SpecReq) : String :=
  match spec.version with
  | some v => if v = "" then spec.name else spec.name ++ "@" ++ v
  | none => spec.name

/-! ## The Package Index Builder -/

structure LocationEntry where
  location : String
  meta : List (String × String)
deriving DecidableEq, Repr

/-- Lookup in the insertion-ordered map model of a JS `Map`. -/
def mapGet {β : Type} (m : List (String × β)) (k : String) : Option β :=
  (m.find? (fun p => p.1 == k)).map (fun p => p.2)

/-- `Map.prototype.set`: overwrite in place, else append. -/
def mapSet {β : Type} : List (String × β) → String → β → List (String × β)
  | [], k, v => [(k, v)]
  | (k', v') :: rest, k, v =>
    if k' == k then (k, v) :: rest else (k', v') :: mapSet rest k v

abbrev VersionBuckets := List (String × List LocationEntry)

abbrev PackageStore := List (String × VersionBuckets)

/-- `addLocationEntry` of the source: entries without a (non-empty, string)
location are dropped, and an entry whose location is already present in the
list is not added again. -/
def addLocationEntry (arr : List LocationEntry) (entry : LocationEntry) :
    List LocationEntry :=
  if entry.location = "" then arr
  else if arr.any (fun e => e.location == entry.location) then arr
  else arr ++ [entry]

/-- `addFoundPackage` of the source (the string-entry overload is the
caller wrapping a bare location into `{ location }`, which the
`LocationEntry` argument already is). -/
def addFoundPackage (store : PackageStore) (name version : String)
    (entry : LocationEntry) : PackageStore :=
  if name = "" || version = "" then store
  else if entry.location = "" then store
  else
    let byVersion := (mapGet store name).getD []
    let list := (mapGet byVersion version).getD []
    mapSet store name (mapSet byVersion version (addLocationEntry list entry))

/-- The location list stored for a (name, version) pair — an absent bucket
reads as empty. -/
def packageBucket (store : PackageStore) (name version : String) :
    List LocationEntry :=
  (mapGet ((mapGet store name).getD []) version).getD []

/-- The number of entries carrying a given location identifier in a
bucket. -/
def countLoc (l : List LocationEntry) (id : String) : Nat :=
  (l.filter (fun e => e.location == id)).length

/-! ## The Matcher -/

inductive LCTok where
  | num : Nat → List Char → LCTok
  | str : List Char → LCTok
deriving DecidableEq, Repr

def cmpNat (a b : Nat) : Ordering :=
  if a < b then .lt else if b < a then .gt else .eq

/-- Comparison of two collation tokens: numeric runs compare by value
(ties broken by their digits), numeric runs sort before non-numeric runs,
non-numeric runs compare by code point. -/
def cmpTok : LCTok → LCTok → Ordering
  | .num v1 r1, .num v2 r2 => (cmpNat v1 v2).then (cmpCharList r1 r2)
  | .num _ _, .str _ => .lt
  | .str _, .num _ _ => .gt
  | .str a, .str b => cmpCharList a b

def cmpTokList (a b : List LCTok) : Ordering := cmpListWith cmpTok a b

def mkLCTok (isNum : Bool) (run : List Char) : LCTok :=
  if isNum then .num (digitsToNat run) run else .str run

def lcTokenizeAux : Option (Bool × List Char) → List Char → List LCTok
  | none, [] => []
  | some p, [] => [mkLCTok p.1 p.2.reverse]
  | none, c :: rest => lcTokenizeAux (some (isDigitChar c, [c])) rest
  | some p, c :: rest =>
    if isDigitChar c == p.1 then lcTokenizeAux (some (p.1, c :: p.2)) rest
    else mkLCTok p.1 p.2.reverse :: lcTokenizeAux (some (isDigitChar c, [c])) rest

/-- Decomposition of a string into maximal digit runs and maximal
non-digit runs. -/
def lcTokenize (l : List Char) : List LCTok :=
  lcTokenizeAux none l

def ordToInt : Ordering → Int
  | .lt => -1
  | .eq => 0
  | .gt => 1

/-- A concrete collation: code-point string ordering with maximal digit
runs compared numerically. The collation the source actually uses —
`String.prototype.localeCompare(_, undefined, { numeric: true })` — depends
on the host's default locale and ICU data, so the definitions below take
the collation as an explicit parameter `lc`; this function only serves to
instantiate that parameter in concrete computations. -/
def codePointNumericCollation (a b : String) : Int :=
  ordToInt (cmpTokList (lcTokenize a.data) (lcTokenize b.data))

/-- The comparator closure of `sortVersions`, with the host's
`localeCompare(_, undefined, { numeric: true })` collation abstracted as
`lc`: semantic comparison when both sides parse and differ, `1` when only
the left side parses, `-1` when only the right side parses, and the host
collation otherwise. -/
def cmpVersionStrings (lc : String → String → Int) (a b : String) : Int :=
  match parseSemver a, parseSemver b with
  | some av, some bv =>
    let cmp := compareSemver av bv
    if cmp ≠ 0 then cmp else lc a b
  | some _, none => 1
  | none, some _ => -1
  | none, none => lc a b

def versionLe (lc : String → String → Int) (a b : String) : Prop :=
  cmpVersionStrings lc a b ≤ 0

instance (lc : String → String → Int) : DecidableRel (versionLe lc) := fun a b => by
  unfold versionLe; infer_instance

/-- `sortVersions` of the source: `Array.prototype.sort` with the
`cmpVersionStrings lc` comparator, `lc` being the host collation — a stable
sort by `versionLe lc`, a total preorder whenever `lc` is one (see the
order lemmas below). -/
def sortVersions (lc : String → String → Int) (versions : List String) :
    List String :=
  List.insertionSort (versionLe lc) versions

structure MatchDetail where
  version : String
  locations : List LocationEntry
deriving DecidableEq, Repr

structure MatchResult where
  request : String
  name : String
  requestedVersion : String
  found : Bool
  exact : Bool
  installedVersions : List String
  matchedVersions : List String
  matchDetails : List MatchDetail
  allLocations : List String
  nonSemverVersions : List String
  rangeInfo : VRange
deriving DecidableEq, Repr

/-- State threaded through the version loop of `matchSpecs`:
matched versions, match details, deduplicated locations, non-semver
versions. -/
structure MatchState where
  matchedVersions : List String
  matchDetails : List MatchDetail
  allLocations : List String
  nonSemverVersions : List String
deriving DecidableEq, Repr

/-- One iteration of the `for (const version of installedVersions)` loop of
`matchSpecs`. -/
def matchStep (rangeInfo : VRange) (byVer : VersionBuckets) (st : MatchState)
    (version : String) : MatchState :=
  let locationsForVersion := (mapGet byVer version).getD []
  let nonSemver :=
    if (parseSemver version).isNone ∧ version ∉ st.nonSemverVersions then
      st.nonSemverVersions ++ [version]
    else st.nonSemverVersions
  if satisfiesRange version rangeInfo then
    { matchedVersions := st.matchedVersions ++ [version],
      matchDetails := st.matchDetails ++ [{ version, locations := locationsForVersion }],
      allLocations := locationsForVersion.foldl
        (fun acc loc => if loc.location ∈ acc then acc else acc ++ [loc.location])
        st.allLocations,
      nonSemverVersions := nonSemver }
  else
    { matchedVersions := st.matchedVersions, matchDetails := st.matchDetails,
      allLocations := st.allLocations, nonSemverVersions := nonSemver }

/-- The compiled range the Matcher evaluates for a request:
`spec.range || parseVersionRange(spec.version)`. -/
def matchRangeInfo (spec : SpecReq) : VRange :=
  match spec.range with
  | some r => r
  | none => parseVersionRange spec.version

/-- The sorted known versions for the requested name (`lc` is the host
collation `sortVersions` sorts with). -/
def matchInstalledVersions (lc : String → String → Int) (spec : SpecReq)
    (installed : PackageStore) : List String :=
  sortVersions lc (((mapGet installed spec.name).getD []).map (fun p => p.1))

/-- The state after the Matcher's `for (const version of installedVersions)`
loop. -/
def matchFinalState (lc : String → String → Int) (spec : SpecReq)
    (installed : PackageStore) : MatchState :=
  (matchInstalledVersions lc spec installed).foldl
    (matchStep (matchRangeInfo spec) ((mapGet installed spec.name).getD []))
    { matchedVersions := [], matchDetails := [], allLocations := [],
      nonSemverVersions := [] }

/-- The body of `matchSpecs` for a single requested entry. -/
def matchOne (lc : String → String → Int) (spec : SpecReq)
    (installed : PackageStore) : MatchResult :=
  let rangeInfo := matchRangeInfo spec
  let st := matchFinalState lc spec installed
  let found := !st.matchedVersions.isEmpty
  let exact := (rangeInfo.type == "exact" || rangeInfo.type == "literal") && found
  let requestedVersion :=
    match spec.version with
    | some sv =>
      if sv = "" then (rangeInfo.raw).getD "(any)"
      else if jsTrim sv = "" then (rangeInfo.raw).getD "(any)"
      else jsTrim sv
    | none => (rangeInfo.raw).getD "(any)"
  { request := specKey spec, name := spec.name, requestedVersion, found, exact,
    installedVersions := matchInstalledVersions lc spec installed,
    matchedVersions := st.matchedVersions,
    matchDetails := st.matchDetails, allLocations := st.allLocations,
    nonSemverVersions := st.nonSemverVersions, rangeInfo }

/-- `matchSpecs` of the source. -/
def matchSpecs (lc : String → String → Int) (specs : List SpecReq)
    (installed : PackageStore) : List MatchResult :=
  specs.map (fun spec => matchOne lc spec installed)

/-! ## Order-theoretic facts about the element comparisons -/

theorem cmpChar_swap (a b : Char) : cmpChar a b = (cmpChar b a).swap := by
  unfold cmpChar
  rcases lt_trichotomy a b with h | h | h
  · simp [h, lt_asymm h, Ordering.swap]
  · subst h
    simp [lt_irrefl, Ordering.swap]
  · simp [h, lt_asymm h, Ordering.swap]

theorem cmpChar_eq_iff (a b : Char) : cmpChar a b = .eq ↔ a = b := by
  unfold cmpChar
  rcases lt_trichotomy a b with h | h | h
  · simp [h, ne_of_lt h]
  · subst h
    simp [lt_irrefl]
  · simp [h, lt_asymm h, (ne_of_lt h).symm]

theorem cmpChar_lt_iff (a b : Char) : cmpChar a b = .lt ↔ a < b := by
  unfold cmpChar
  rcases lt_trichotomy a b with h | h | h
  · simp [h]
  · subst h
    simp [lt_irrefl]
  · simp [h, lt_asymm h]

theorem cmpChar_lt_trans {a b c : Char} (h1 : cmpChar a b = .lt) (h2 : cmpChar b c = .lt) :
    cmpChar a c = .lt :=
  (cmpChar_lt_iff a c).mpr (lt_trans ((cmpChar_lt_iff a b).mp h1) ((cmpChar_lt_iff b c).mp h2))

theorem cmpNat_swap (a b : Nat) : cmpNat a b = (cmpNat b a).swap := by
  unfold cmpNat
  rcases Nat.lt_trichotomy a b with h | h | h
  · simp [h, Nat.lt_asymm h, Ordering.swap]
  · subst h
    simp [Nat.lt_irrefl, Ordering.swap]
  · simp [h, Nat.lt_asymm h, Ordering.swap]

theorem cmpNat_eq_iff (a b : Nat) : cmpNat a b = .eq ↔ a = b := by
  unfold cmpNat
  rcases Nat.lt_trichotomy a b with h | h | h
  · simp only [if_pos h]
    simp [Nat.ne_of_lt h]
  · subst h
    simp [Nat.lt_irrefl]
  · simp only [if_neg (Nat.lt_asymm h), if_pos h]
    simp [(Nat.ne_of_lt h).symm]

theorem cmpNat_lt_iff (a b : Nat) : cmpNat a b = .lt ↔ a < b := by
  unfold cmpNat
  rcases Nat.lt_trichotomy a b with h | h | h
  · simp [h]
  · subst h
    simp [Nat.lt_irrefl]
  · simp only [if_neg (Nat.lt_asymm h), if_pos h]
    simp [Nat.lt_asymm h]

theorem cmpListWith_swap {α : Type} (c : α → α → Ordering)
    (hswap : ∀ a b, c a b = (c b a).swap) :
    ∀ x y, cmpListWith c x y = (cmpListWith c y x).swap
  | [], [] => rfl
  | [], _ :: _ => rfl
  | _ :: _, [] => rfl
  | a :: as, b :: bs => by
    simp only [cmpListWith, hswap a b]
    cases hba : c b a with
    | lt => simp [Ordering.swap]
    | gt => simp [Ordering.swap]
    | eq => simpa [Ordering.swap] using cmpListWith_swap c hswap as bs

theorem cmpListWith_eq_iff {α : Type} (c : α → α → Ordering)
    (heq : ∀ a b, c a b = .eq ↔ a = b) :
    ∀ x y, cmpListWith c x y = .eq ↔ x = y
  | [], [] => by simp [cmpListWith]
  | [], _ :: _ => by simp [cmpListWith]
  | _ :: _, [] => by simp [cmpListWith]
  | a :: as, b :: bs => by
    simp only [cmpListWith]
    cases hab : c a b with
    | lt =>
      have : a ≠ b := fun h => by simp [(heq a b).mpr h] at hab
      simp [this]
    | gt =>
      have : a ≠ b := fun h => by simp [(heq a b).mpr h] at hab
      simp [this]
    | eq =>
      have hab' : a = b := (heq a b).mp hab
      simp [hab', cmpListWith_eq_iff c heq as bs]

theorem cmpListWith_lt_trans {α : Type} (c : α → α → Ordering)
    (heq : ∀ a b, c a b = .eq ↔ a = b)
    (hlt : ∀ {a b d}, c a b = .lt → c b d = .lt → c a d = .lt) :
    ∀ x y z, cmpListWith c x y = .lt → cmpListWith c y z = .lt →
      cmpListWith c x z = .lt
  | [], [], _, h1, _ => by simp [cmpListWith] at h1
  | [], _ :: _, [], _, h2 => by simp [cmpListWith] at h2
  | [], _ :: _, _ :: _, _, _ => rfl
  | _ :: _, [], _, h1, _ => by simp [cmpListWith] at h1
  | _ :: _, _ :: _, [], _, h2 => by simp [cmpListWith] at h2
  | a :: as, b :: bs, d :: ds, h1, h2 => by
    simp only [cmpListWith] at h1 h2 ⊢
    cases hab : c a b with
    | gt => simp [hab] at h1
    | lt =>
      cases hbd : c b d with
      | gt => simp [hbd] at h2
      | lt => simp [hlt hab hbd]
      | eq =>
        have : b = d := (heq b d).mp hbd
        subst this
        simp [hab]
    | eq =>
      have : a = b := (heq a b).mp hab
      subst this
      cases hbd : c a d with
      | gt => simp [hbd] at h2
      | lt => simp [hbd]
      | eq =>
        simp only [hab] at h1
        simp only [hbd] at h2
        simp [hbd, cmpListWith_lt_trans c heq (fun h h' => hlt h h') as bs ds h1 h2]

theorem cmpCharList_swap (x y : List Char) : cmpCharList x y = (cmpCharList y x).swap :=
  cmpListWith_swap cmpChar cmpChar_swap x y

theorem cmpCharList_eq_iff (x y : List Char) : cmpCharList x y = .eq ↔ x = y :=
  cmpListWith_eq_iff cmpChar cmpChar_eq_iff x y

theorem cmpCharList_lt_trans {x y z : List Char} (h1 : cmpCharList x y = .lt)
    (h2 : cmpCharList y z = .lt) : cmpCharList x z = .lt :=
  cmpListWith_lt_trans cmpChar cmpChar_eq_iff
    (fun h h' => cmpChar_lt_trans h h') x y z h1 h2

theorem ordToInt_swap (o : Ordering) : ordToInt o.swap = -(ordToInt o) := by
  cases o <;> rfl

theorem ordToInt_nonpos_iff (o : Ordering) :
    ordToInt o ≤ 0 ↔ o = .lt ∨ o = .eq := by
  cases o <;> simp [ordToInt]

theorem cmpTok_swap (a b : LCTok) : cmpTok a b = (cmpTok b a).swap := by
  cases a with
  | num v1 r1 =>
    cases b with
    | num v2 r2 =>
      simp only [cmpTok, cmpNat_swap v1 v2, cmpCharList_swap r1 r2]
      cases cmpNat v2 v1 <;> cases cmpCharList r2 r1 <;> rfl
    | str _ => rfl
  | str s1 =>
    cases b with
    | num _ _ => rfl
    | str s2 => simp only [cmpTok, cmpCharList_swap s1 s2]

theorem cmpTok_eq_iff (a b : LCTok) : cmpTok a b = .eq ↔ a = b := by
  cases a with
  | num v1 r1 =>
    cases b with
    | num v2 r2 =>
      simp only [cmpTok]
      cases h : cmpNat v1 v2 with
      | lt =>
        have : v1 ≠ v2 := fun he => by simp [(cmpNat_eq_iff v1 v2).mpr he] at h
        simp [Ordering.then, this]
      | gt =>
        have : v1 ≠ v2 := fun he => by simp [(cmpNat_eq_iff v1 v2).mpr he] at h
        simp [Ordering.then, this]
      | eq =>
        have hv : v1 = v2 := (cmpNat_eq_iff v1 v2).mp h
        simp [Ordering.then, hv, cmpCharList_eq_iff r1 r2]
    | str _ => simp [cmpTok]
  | str s1 =>
    cases b with
    | num _ _ => simp [cmpTok]
    | str s2 => simp [cmpTok, cmpCharList_eq_iff s1 s2]

theorem cmpTok_lt_num_num (v1 v2 : Nat) (r1 r2 : List Char) :
    cmpTok (.num v1 r1) (.num v2 r2) = .lt ↔
      v1 < v2 ∨ (v1 = v2 ∧ cmpCharList r1 r2 = .lt) := by
  simp only [cmpTok]
  cases h : cmpNat v1 v2 with
  | lt =>
    have hv := (cmpNat_lt_iff v1 v2).mp h
    simp [Ordering.then, hv]
  | gt =>
    have hv1 : ¬v1 < v2 := by
      intro hc
      simp [(cmpNat_lt_iff v1 v2).mpr hc] at h
    have hv2 : v1 ≠ v2 := by
      intro hc
      simp [(cmpNat_eq_iff v1 v2).mpr hc] at h
    simp [Ordering.then, hv1, hv2]
  | eq =>
    have hv : v1 = v2 := (cmpNat_eq_iff v1 v2).mp h
    simp [Ordering.then, hv, Nat.lt_irrefl]

theorem cmpTok_num_str (v : Nat) (r s : List Char) :
    cmpTok (.num v r) (.str s) = .lt := rfl

theorem cmpTok_str_num (v : Nat) (r s : List Char) :
    cmpTok (.str s) (.num v r) = .gt := rfl

theorem cmpTok_str_str (s1 s2 : List Char) :
    cmpTok (.str s1) (.str s2) = cmpCharList s1 s2 := rfl

theorem cmpTok_lt_trans {a b c : LCTok} (h1 : cmpTok a b = .lt) (h2 : cmpTok b c = .lt) :
    cmpTok a c = .lt := by
  cases a with
  | num v1 r1 =>
    cases c with
    | str s3 => exact cmpTok_num_str v1 r1 s3
    | num v3 r3 =>
      cases b with
      | str s2 => rw [cmpTok_str_num] at h2; cases h2
      | num v2 r2 =>
        rw [cmpTok_lt_num_num] at h1 h2 ⊢
        rcases h1 with h | ⟨he, hr⟩
        · rcases h2 with h' | ⟨he', _⟩
          · exact Or.inl (Nat.lt_trans h h')
          · exact Or.inl (he' ▸ h)
        · rcases h2 with h' | ⟨he', hr'⟩
          · exact Or.inl (he ▸ h')
          · exact Or.inr ⟨he.trans he', cmpCharList_lt_trans hr hr'⟩
  | str s1 =>
    cases b with
    | num v2 r2 => rw [cmpTok_str_num] at h1; cases h1
    | str s2 =>
      cases c with
      | num v3 r3 => rw [cmpTok_str_num] at h2; cases h2
      | str s3 =>
        rw [cmpTok_str_str] at h1 h2 ⊢
        exact cmpCharList_lt_trans h1 h2

theorem cmpTokList_swap (x y : List LCTok) : cmpTokList x y = (cmpTokList y x).swap :=
  cmpListWith_swap cmpTok cmpTok_swap x y

theorem cmpTokList_eq_iff (x y : List LCTok) : cmpTokList x y = .eq ↔ x = y :=
  cmpListWith_eq_iff cmpTok cmpTok_eq_iff x y

theorem cmpTokList_lt_trans {x y z : List LCTok} (h1 : cmpTokList x y = .lt)
    (h2 : cmpTokList y z = .lt) : cmpTokList x z = .lt :=
  cmpListWith_lt_trans cmpTok cmpTok_eq_iff
    (fun h h' => cmpTok_lt_trans h h') x y z h1 h2

/-! ## Order facts about the concrete sample collation -/

theorem codePointNumericCollation_antisym (a b : String) :
    codePointNumericCollation a b = -(codePointNumericCollation b a) := by
  unfold codePointNumericCollation
  rw [cmpTokList_swap, ordToInt_swap]

theorem codePointNumericCollation_total (a b : String) :
    codePointNumericCollation a b ≤ 0 ∨ codePointNumericCollation b a ≤ 0 := by
  have h := codePointNumericCollation_antisym a b
  omega

theorem codePointNumericCollation_zero_iff (a b : String) :
    codePointNumericCollation a b = 0 ↔ lcTokenize a.data = lcTokenize b.data := by
  unfold codePointNumericCollation
  rw [← cmpTokList_eq_iff]
  cases cmpTokList (lcTokenize a.data) (lcTokenize b.data) <;> simp [ordToInt]

theorem codePointNumericCollation_le_trans {a b c : String}
    (h1 : codePointNumericCollation a b ≤ 0)
    (h2 : codePointNumericCollation b c ≤ 0) :
    codePointNumericCollation a c ≤ 0 := by
  unfold codePointNumericCollation at *
  rcases (ordToInt_nonpos_iff _).mp h1 with h1' | h1' <;>
    rcases (ordToInt_nonpos_iff _).mp h2 with h2' | h2'
  · exact (ordToInt_nonpos_iff _).mpr (Or.inl (cmpTokList_lt_trans h1' h2'))
  · rw [(cmpTokList_eq_iff _ _).mp h2'] at h1'
    exact (ordToInt_nonpos_iff _).mpr (Or.inl h1')
  · rw [← (cmpTokList_eq_iff _ _).mp h1'] at h2'
    exact (ordToInt_nonpos_iff _).mpr (Or.inl h2')
  · rw [(cmpTokList_eq_iff _ _).mp h1', (cmpTokList_eq_iff _ _).mp h2']
    rw [(cmpTokList_eq_iff _ _).mpr rfl]
    simp [ordToInt]

/-! ## Order facts about `compareIdentifiers` -/

theorem string_eq_iff_data (a b : String) : a = b ↔ a.data = b.data :=
  ⟨fun h => h ▸ rfl, String.ext⟩

theorem jsStringLt_iff (a b : String) :
    jsStringLt a b = true ↔ cmpCharList a.data b.data = .lt := by
  simp [jsStringLt]

theorem jsStringLt_cases {a b : String} (hne : a ≠ b) :
    (jsStringLt a b = true ∧ jsStringLt b a = false) ∨
      (jsStringLt a b = false ∧ jsStringLt b a = true) := by
  have hd : a.data ≠ b.data := fun h => hne (String.ext h)
  have hswap := cmpCharList_swap b.data a.data
  cases h : cmpCharList a.data b.data with
  | eq => exact absurd ((cmpCharList_eq_iff _ _).mp h) hd
  | lt =>
    refine Or.inl ⟨(jsStringLt_iff a b).mpr h, ?_⟩
    rw [h] at hswap
    simp [jsStringLt, hswap, Ordering.swap]
  | gt =>
    refine Or.inr ⟨?_, ?_⟩
    · simp [jsStringLt, h]
    · rw [h] at hswap
      simp [jsStringLt, hswap, Ordering.swap]

theorem compareIdentifiers_self (a : String) : compareIdentifiers a a = 0 := by
  simp [compareIdentifiers]

theorem compareIdentifiers_antisym (a b : String) :
    compareIdentifiers a b = -(compareIdentifiers b a) := by
  by_cases hab : a = b
  · subst hab
    simp [compareIdentifiers]
  · have hba : b ≠ a := Ne.symm hab
    unfold compareIdentifiers
    simp only [if_neg hab, if_neg hba]
    by_cases ha : isNumericId a = true <;> by_cases hb : isNumericId b = true
    · simp only [ha, hb, Bool.and_self, if_pos]
      rcases Nat.lt_trichotomy (jsParseInt a.data) (jsParseInt b.data) with h | h | h
      · simp [Nat.ne_of_lt h, (Nat.ne_of_lt h).symm, h, Nat.lt_asymm h]
      · simp [h]
      · simp [Nat.ne_of_lt h, (Nat.ne_of_lt h).symm, h, Nat.lt_asymm h]
    · simp [ha, hb]
    · simp [ha, hb]
    · simp only [ha, hb]
      rcases jsStringLt_cases hab with ⟨h1, h2⟩ | ⟨h1, h2⟩ <;> simp [h1, h2]

theorem compareIdentifiers_zero_iff (a b : String) :
    compareIdentifiers a b = 0 ↔
      a = b ∨ (isNumericId a = true ∧ isNumericId b = true ∧
        jsParseInt a.data = jsParseInt b.data) := by
  by_cases hab : a = b
  · subst hab
    simp [compareIdentifiers]
  · unfold compareIdentifiers
    simp only [if_neg hab]
    by_cases ha : isNumericId a = true <;> by_cases hb : isNumericId b = true
    · simp only [ha, hb, Bool.and_self, if_pos]
      by_cases hv : jsParseInt a.data = jsParseInt b.data
      · simp [hv, hab]
      · rcases Nat.lt_or_ge (jsParseInt a.data) (jsParseInt b.data) with h | h
        · simp [hv, h, hab]
        · simp [hv, Nat.not_lt.mpr h, hab]
    · simp [ha, hb, hab]
    · simp [ha, hb, hab]
    · simp only [ha, hb]
      by_cases h : jsStringLt a b = true <;> simp [h, hab, ha]

theorem compareIdentifiers_zero_congr {a b : String}
    (h : compareIdentifiers a b = 0) (d : String) :
    compareIdentifiers a d = compareIdentifiers b d := by
  rcases (compareIdentifiers_zero_iff a b).mp h with he | ⟨ha, hb, hv⟩
  · subst he
    rfl
  · by_cases hab : a = b
    · subst hab
      rfl
    · by_cases had : a = d <;> by_cases hbd : b = d
      · exact absurd (had.trans hbd.symm) hab
      · subst had
        rw [compareIdentifiers_self]
        symm
        exact (compareIdentifiers_zero_iff b a).mpr (Or.inr ⟨hb, ha, hv.symm⟩)
      · subst hbd
        rw [compareIdentifiers_self]
        exact (compareIdentifiers_zero_iff a b).mpr (Or.inr ⟨ha, hb, hv⟩)
      · unfold compareIdentifiers
        simp only [if_neg had, if_neg hbd, ha, hb, Bool.true_and]
        by_cases hd : isNumericId d = true
        · simp only [hd, if_pos, hv]
        · simp [hd]

theorem compareIdentifiers_neg_trans {a b c : String}
    (h1 : compareIdentifiers a b = -1) (h2 : compareIdentifiers b c = -1) :
    compareIdentifiers a c = -1 := by
  by_cases hab : a = b
  · subst hab
    exact h2
  · by_cases hbc : b = c
    · subst hbc
      exact h1
    · unfold compareIdentifiers at h1 h2
      simp only [if_neg hab, if_neg hbc] at h1 h2
      by_cases ha : isNumericId a = true <;> by_cases hb : isNumericId b = true <;>
        by_cases hc : isNumericId c = true
      all_goals simp only [ha, hb, hc, Bool.and_self, Bool.and_false, Bool.false_and,
        Bool.true_and, Bool.and_true, if_true, if_false, Bool.false_eq_true,
        if_pos, if_neg] at h1 h2
      -- numeric/numeric/numeric
      · have hv1 : jsParseInt a.data < jsParseInt b.data := by
          by_cases he : jsParseInt a.data = jsParseInt b.data
          · simp [he] at h1
          · by_cases hl : jsParseInt a.data < jsParseInt b.data
            · exact hl
            · simp [he, hl] at h1
        have hv2 : jsParseInt b.data < jsParseInt c.data := by
          by_cases he : jsParseInt b.data = jsParseInt c.data
          · simp [he] at h2
          · by_cases hl : jsParseInt b.data < jsParseInt c.data
            · exact hl
            · simp [he, hl] at h2
        have hv : jsParseInt a.data < jsParseInt c.data := Nat.lt_trans hv1 hv2
        by_cases hac : a = c
        · subst hac
          exact absurd rfl (Nat.ne_of_lt (Nat.lt_trans hv1 hv2)).elim
        · unfold compareIdentifiers
          simp [hac, ha, hc, Nat.ne_of_lt hv, hv]
      -- numeric/numeric/alpha
      · by_cases hac : a = c
        · subst hac
          simp [ha] at hc
        · unfold compareIdentifiers
          simp [hac, ha, hc]
      -- numeric/alpha/numeric : c b c = 1, impossible
      · simp at h2
      -- numeric/alpha/alpha
      · by_cases hac : a = c
        · subst hac
          simp [ha] at hc
        · unfold compareIdentifiers
          simp [hac, ha, hc]
      -- alpha/numeric/* : c a b = 1, impossible
      · simp at h1
      · simp at h1
      -- alpha/alpha/numeric : c b c = 1, impossible
      · simp at h2
      -- alpha/alpha/alpha
      · have hl1 : cmpCharList a.data b.data = .lt := by
          by_cases h : jsStringLt a b = true
          · exact (jsStringLt_iff a b).mp h
          · simp [h] at h1
        have hl2 : cmpCharList b.data c.data = .lt := by
          by_cases h : jsStringLt b c = true
          · exact (jsStringLt_iff b c).mp h
          · simp [h] at h2
        have hl : cmpCharList a.data c.data = .lt := cmpCharList_lt_trans hl1 hl2
        have hac : a ≠ c := by
          intro he
          subst he
          rw [(cmpCharList_eq_iff a.data a.data).mpr rfl] at hl
          cases hl
        unfold compareIdentifiers
        simp [hac, ha, hb, hc, (jsStringLt_iff a c).mpr hl]

theorem compareIdentifiers_range (a b : String) :
    compareIdentifiers a b = -1 ∨ compareIdentifiers a b = 0 ∨
      compareIdentifiers a b = 1 := by
  unfold compareIdentifiers
  by_cases hab : a = b
  · simp [hab]
  · simp only [if_neg hab]
    by_cases ha : isNumericId a = true <;> by_cases hb : isNumericId b = true <;>
      simp only [ha, hb, Bool.and_self, Bool.and_false, Bool.false_and, if_pos, if_neg]
    · by_cases he : jsParseInt a.data = jsParseInt b.data
      · simp [he]
      · by_cases hl : jsParseInt a.data < jsParseInt b.data <;> simp [he, hl]
    · simp
    · simp
    · by_cases h : jsStringLt a b = true <;> simp [h]

theorem compareIdentifiers_zero_congr_right {b d : String}
    (h : compareIdentifiers b d = 0) (a : String) :
    compareIdentifiers a b = compareIdentifiers a d := by
  have hdb : compareIdentifiers d b = 0 := by
    rw [compareIdentifiers_antisym, h]
    rfl
  rw [compareIdentifiers_antisym a b, compareIdentifiers_antisym a d,
    compareIdentifiers_zero_congr hdb a]

/-! ## Order facts about the prerelease comparison -/

theorem comparePrereleaseLists_antisym :
    ∀ x y, comparePrereleaseLists x y = -(comparePrereleaseLists y x)
  | [], [] => rfl
  | [], _ :: _ => rfl
  | _ :: _, [] => rfl
  | a :: as, b :: bs => by
    simp only [comparePrereleaseLists]
    rw [compareIdentifiers_antisym a b]
    by_cases h : compareIdentifiers b a = 0
    · simp [h, comparePrereleaseLists_antisym as bs]
    · simp [h, neg_eq_zero]

theorem comparePrereleaseLists_zero_iff :
    ∀ x y, comparePrereleaseLists x y = 0 ↔
      List.Forall₂ (fun a b => compareIdentifiers a b = 0) x y
  | [], [] => by simp [comparePrereleaseLists]
  | [], _ :: _ => by simp [comparePrereleaseLists]
  | _ :: _, [] => by simp [comparePrereleaseLists]
  | a :: as, b :: bs => by
    simp only [comparePrereleaseLists]
    by_cases h : compareIdentifiers a b = 0
    · simp [h, comparePrereleaseLists_zero_iff as bs]
    · simp [h, List.forall₂_cons]

theorem comparePrereleaseLists_zero_congr :
    ∀ {x y}, comparePrereleaseLists x y = 0 →
      ∀ z, comparePrereleaseLists x z = comparePrereleaseLists y z
  | [], [], _, _ => rfl
  | [], _ :: _, h, _ => by simp [comparePrereleaseLists] at h
  | _ :: _, [], h, _ => by simp [comparePrereleaseLists] at h
  | a :: as, b :: bs, h, z => by
    simp only [comparePrereleaseLists] at h
    by_cases hab : compareIdentifiers a b = 0
    · simp only [hab, if_pos] at h
      cases z with
      | nil => rfl
      | cons d ds =>
        simp only [comparePrereleaseLists]
        rw [compareIdentifiers_zero_congr hab d,
          comparePrereleaseLists_zero_congr h ds]
    · simp only [if_neg hab] at h
      exact absurd h hab

theorem comparePrereleaseLists_neg_trans :
    ∀ {x y z}, comparePrereleaseLists x y = -1 → comparePrereleaseLists y z = -1 →
      comparePrereleaseLists x z = -1
  | [], [], _, h1, _ => by simp [comparePrereleaseLists] at h1
  | [], _ :: _, [], _, h2 => by simp [comparePrereleaseLists] at h2
  | [], _ :: _, _ :: _, _, _ => rfl
  | _ :: _, [], _, h1, _ => by simp [comparePrereleaseLists] at h1
  | _ :: _, _ :: _, [], _, h2 => by simp [comparePrereleaseLists] at h2
  | a :: as, b :: bs, d :: ds, h1, h2 => by
    simp only [comparePrereleaseLists] at h1 h2 ⊢
    by_cases hab : compareIdentifiers a b = 0 <;>
      by_cases hbd : compareIdentifiers b d = 0
    · rw [if_pos hab] at h1
      rw [if_pos hbd] at h2
      have had : compareIdentifiers a d = 0 := by
        rw [compareIdentifiers_zero_congr hab d]
        exact hbd
      rw [if_pos had]
      exact comparePrereleaseLists_neg_trans h1 h2
    · rw [if_neg hbd] at h2
      have had : compareIdentifiers a d = -1 := by
        rw [compareIdentifiers_zero_congr hab d]
        exact h2
      rw [if_neg (by rw [had]; decide)]
      exact had
    · rw [if_neg hab] at h1
      have had : compareIdentifiers a d = -1 := by
        rw [← compareIdentifiers_zero_congr_right hbd a]
        exact h1
      rw [if_neg (by rw [had]; decide)]
      exact had
    · rw [if_neg hab] at h1
      rw [if_neg hbd] at h2
      have had := compareIdentifiers_neg_trans h1 h2
      rw [if_neg (by rw [had]; decide)]
      exact had

theorem comparePrereleaseLists_range :
    ∀ x y, comparePrereleaseLists x y = -1 ∨ comparePrereleaseLists x y = 0 ∨
      comparePrereleaseLists x y = 1
  | [], [] => Or.inr (Or.inl rfl)
  | [], _ :: _ => Or.inl rfl
  | _ :: _, [] => Or.inr (Or.inr rfl)
  | a :: as, b :: bs => by
    simp only [comparePrereleaseLists]
    by_cases hab : compareIdentifiers a b = 0
    · simpa [hab] using comparePrereleaseLists_range as bs
    · simpa [hab] using compareIdentifiers_range a b

theorem comparePre_antisym (x y : List String) :
    comparePre x y = -(comparePre y x) := by
  match x, y with
  | [], [] => rfl
  | [], _ :: _ => rfl
  | _ :: _, [] => rfl
  | _ :: _, _ :: _ => exact comparePrereleaseLists_antisym _ _

theorem comparePre_zero_iff (x y : List String) :
    comparePre x y = 0 ↔ List.Forall₂ (fun a b => compareIdentifiers a b = 0) x y := by
  match x, y with
  | [], [] => simp [comparePre]
  | [], _ :: _ => simp [comparePre]
  | _ :: _, [] => simp [comparePre]
  | _ :: _, _ :: _ => exact comparePrereleaseLists_zero_iff _ _

theorem comparePre_zero_congr {x y : List String} (h : comparePre x y = 0)
    (z : List String) : comparePre x z = comparePre y z := by
  match x, y with
  | [], [] => rfl
  | [], _ :: _ => simp [comparePre] at h
  | _ :: _, [] => simp [comparePre] at h
  | a :: as, b :: bs =>
    match z with
    | [] => rfl
    | d :: ds => exact comparePrereleaseLists_zero_congr h (d :: ds)

theorem comparePre_neg_trans {x y z : List String} (h1 : comparePre x y = -1)
    (h2 : comparePre y z = -1) : comparePre x z = -1 := by
  match x, y, z with
  | [], [], _ => exact absurd h1 (by simp [comparePre])
  | [], _ :: _, _ => exact absurd h1 (by simp [comparePre])
  | _ :: _, [], [] => exact absurd h2 (by simp [comparePre])
  | _ :: _, [], _ :: _ => exact absurd h2 (by simp [comparePre])
  | _ :: _, _ :: _, [] => rfl
  | _ :: _, _ :: _, _ :: _ => exact comparePrereleaseLists_neg_trans h1 h2

theorem comparePre_range (x y : List String) :
    comparePre x y = -1 ∨ comparePre x y = 0 ∨ comparePre x y = 1 := by
  match x, y with
  | [], [] => exact Or.inr (Or.inl rfl)
  | [], _ :: _ => exact Or.inr (Or.inr rfl)
  | _ :: _, [] => exact Or.inl rfl
  | _ :: _, _ :: _ => exact comparePrereleaseLists_range _ _

/-! ## Order facts about `compareSemver` -/

theorem compareSemver_neg_iff (a b : SemVersion) :
    compareSemver a b = -1 ↔
      a.major < b.major ∨
      (a.major = b.major ∧ a.minor < b.minor) ∨
      (a.major = b.major ∧ a.minor = b.minor ∧ a.patch < b.patch) ∨
      (a.major = b.major ∧ a.minor = b.minor ∧ a.patch = b.patch ∧
        comparePre a.prerelease b.prerelease = -1) := by
  unfold compareSemver
  by_cases h1 : a.major = b.major
  · by_cases h2 : a.minor = b.minor
    · by_cases h3 : a.patch = b.patch
      · simp [h1, h2, h3]
      · rcases Nat.lt_or_ge a.patch b.patch with h | h
        · simp [h1, h2, h3, h, Nat.ne_of_lt h]
        · have hgt : ¬a.patch < b.patch := Nat.not_lt.mpr h
          simp [h1, h2, h3, hgt]
    · rcases Nat.lt_or_ge a.minor b.minor with h | h
      · simp [h1, h2, h, Nat.ne_of_lt h]
      · have hgt : ¬a.minor < b.minor := Nat.not_lt.mpr h
        simp [h1, h2, hgt]
  · rcases Nat.lt_or_ge a.major b.major with h | h
    · simp [h1, h, Nat.ne_of_lt h]
    · have hgt : ¬a.major < b.major := Nat.not_lt.mpr h
      simp [h1, hgt]

theorem compareSemver_zero_iff (a b : SemVersion) :
    compareSemver a b = 0 ↔
      a.major = b.major ∧ a.minor = b.minor ∧ a.patch = b.patch ∧
        comparePre a.prerelease b.prerelease = 0 := by
  unfold compareSemver
  by_cases h1 : a.major = b.major
  · by_cases h2 : a.minor = b.minor
    · by_cases h3 : a.patch = b.patch
      · simp [h1, h2, h3]
      · by_cases h : a.patch < b.patch <;> simp [h1, h2, h3, h]
    · by_cases h : a.minor < b.minor <;> simp [h1, h2, h]
  · by_cases h : a.major < b.major <;> simp [h1, h]

theorem compareSemver_antisym (a b : SemVersion) :
    compareSemver a b = -(compareSemver b a) := by
  unfold compareSemver
  by_cases h1 : a.major = b.major
  · by_cases h2 : a.minor = b.minor
    · by_cases h3 : a.patch = b.patch
      · simp [h1, h2, h3, comparePre_antisym a.prerelease b.prerelease]
      · rcases Nat.lt_or_ge a.patch b.patch with h | h
        · simp [h1, h2, h3, Ne.symm h3, h, Nat.lt_asymm h]
        · have hlt : b.patch < a.patch := Nat.lt_of_le_of_ne h (Ne.symm h3)
          simp [h1, h2, h3, Ne.symm h3, hlt, Nat.lt_asymm hlt]
    · rcases Nat.lt_or_ge a.minor b.minor with h | h
      · simp [h1, h2, Ne.symm h2, h, Nat.lt_asymm h]
      · have hlt : b.minor < a.minor := Nat.lt_of_le_of_ne h (Ne.symm h2)
        simp [h1, h2, Ne.symm h2, hlt, Nat.lt_asymm hlt]
  · rcases Nat.lt_or_ge a.major b.major with h | h
    · simp [h1, Ne.symm h1, h, Nat.lt_asymm h]
    · have hlt : b.major < a.major := Nat.lt_of_le_of_ne h (Ne.symm h1)
      simp [h1, Ne.symm h1, hlt, Nat.lt_asymm hlt]

theorem compareSemver_neg_trans {a b c : SemVersion} (h1 : compareSemver a b = -1)
    (h2 : compareSemver b c = -1) : compareSemver a c = -1 := by
  rw [compareSemver_neg_iff] at h1 h2 ⊢
  rcases h1 with h | ⟨e1, h⟩ | ⟨e1, e2, h⟩ | ⟨e1, e2, e3, h⟩ <;>
    rcases h2 with h' | ⟨f1, h'⟩ | ⟨f1, f2, h'⟩ | ⟨f1, f2, f3, h'⟩ <;>
    try first
      | exact Or.inl (by omega)
      | exact Or.inr (Or.inl ⟨by omega, by omega⟩)
      | exact Or.inr (Or.inr (Or.inl ⟨by omega, by omega, by omega⟩))
  exact Or.inr (Or.inr (Or.inr
    ⟨by omega, by omega, by omega, comparePre_neg_trans h h'⟩))

theorem compareSemver_zero_congr {a b : SemVersion} (h : compareSemver a b = 0)
    (d : SemVersion) : compareSemver a d = compareSemver b d := by
  obtain ⟨e1, e2, e3, e4⟩ := (compareSemver_zero_iff a b).mp h
  unfold compareSemver
  rw [e1, e2, e3, comparePre_zero_congr e4 d.prerelease]

theorem compareSemver_zero_congr_right {b d : SemVersion}
    (h : compareSemver b d = 0) (a : SemVersion) :
    compareSemver a b = compareSemver a d := by
  have hdb : compareSemver d b = 0 := by
    rw [compareSemver_antisym, h]
    rfl
  rw [compareSemver_antisym a b, compareSemver_antisym a d,
    compareSemver_zero_congr hdb a]

theorem compareSemver_range (a b : SemVersion) :
    compareSemver a b = -1 ∨ compareSemver a b = 0 ∨ compareSemver a b = 1 := by
  unfold compareSemver
  by_cases h1 : a.major = b.major
  · by_cases h2 : a.minor = b.minor
    · by_cases h3 : a.patch = b.patch
      · simpa [h1, h2, h3] using comparePre_range a.prerelease b.prerelease
      · by_cases h : a.patch < b.patch <;> simp [h1, h2, h3, h]
    · by_cases h : a.minor < b.minor <;> simp [h1, h2, h]
  · by_cases h : a.major < b.major <;> simp [h1, h]

/-! ## Order facts about the version-string comparator of `sortVersions` -/

theorem codePointNumericCollation_range (a b : String) :
    codePointNumericCollation a b = -1 ∨ codePointNumericCollation a b = 0 ∨
      codePointNumericCollation a b = 1 := by
  unfold codePointNumericCollation
  cases cmpTokList (lcTokenize a.data) (lcTokenize b.data) <;> simp [ordToInt]

theorem cmpVersionStrings_total (lc : String → String → Int)
    (htot : ∀ a b, lc a b ≤ 0 ∨ lc b a ≤ 0) (a b : String) :
    cmpVersionStrings lc a b ≤ 0 ∨ cmpVersionStrings lc b a ≤ 0 := by
  unfold cmpVersionStrings
  cases ha : parseSemver a with
  | none =>
    cases hb : parseSemver b with
    | none => exact htot a b
    | some bv =>
      left
      show (-1 : Int) ≤ 0
      decide
  | some av =>
    cases hb : parseSemver b with
    | none =>
      right
      show (-1 : Int) ≤ 0
      decide
    | some bv =>
      simp only
      by_cases h : compareSemver av bv = 0
      · have h' : compareSemver bv av = 0 := by
          rw [compareSemver_antisym bv av, h]
          rfl
        rw [if_neg (by simp [h]), if_neg (by simp [h'])]
        exact htot a b
      · rcases compareSemver_range av bv with hv | hv | hv
        · left
          rw [if_pos (by rw [hv]; decide), hv]
          decide
        · exact absurd hv h
        · right
          have h' : compareSemver bv av = -1 := by
            rw [compareSemver_antisym bv av, hv]
          rw [if_pos (by rw [h']; decide), h']
          decide

theorem cmpVersionStrings_le_trans (lc : String → String → Int)
    (htrans : ∀ a b c, lc a b ≤ 0 → lc b c ≤ 0 → lc a c ≤ 0) {a b c : String}
    (h1 : cmpVersionStrings lc a b ≤ 0) (h2 : cmpVersionStrings lc b c ≤ 0) :
    cmpVersionStrings lc a c ≤ 0 := by
  unfold cmpVersionStrings at h1 h2 ⊢
  cases ha : parseSemver a with
  | none =>
    cases hc : parseSemver c with
    | some cv => simp
    | none =>
      cases hb : parseSemver b with
      | none =>
        rw [ha, hb] at h1
        rw [hb, hc] at h2
        exact htrans a b c h1 h2
      | some bv =>
        rw [hb, hc] at h2
        simp at h2
  | some av =>
    cases hc : parseSemver c with
    | none =>
      cases hb : parseSemver b with
      | none =>
        rw [ha, hb] at h1
        simp at h1
      | some bv =>
        rw [hb, hc] at h2
        simp at h2
    | some cv =>
      cases hb : parseSemver b with
      | none =>
        rw [ha, hb] at h1
        simp at h1
      | some bv =>
        rw [ha, hb] at h1
        rw [hb, hc] at h2
        simp only at h1 h2 ⊢
        by_cases e1 : compareSemver av bv = 0 <;> by_cases e2 : compareSemver bv cv = 0
        · have e3 : compareSemver av cv = 0 := by
            rw [compareSemver_zero_congr e1 cv]
            exact e2
          simp only [e1, ne_eq, not_true_eq_false, if_false, if_neg] at h1
          simp only [e2, ne_eq, not_true_eq_false, if_false, if_neg] at h2
          simp only [e3, ne_eq, not_true_eq_false, if_false, if_neg]
          exact htrans a b c h1 h2
        · have e3 : compareSemver av cv = compareSemver bv cv :=
            compareSemver_zero_congr e1 cv
          rw [if_pos (by rw [e3]; exact e2)]
          rw [e3]
          rw [if_pos e2] at h2
          exact h2
        · have e3 : compareSemver av cv = compareSemver av bv :=
            (compareSemver_zero_congr_right e2 av).symm
          rw [if_pos (by rw [e3]; exact e1)]
          rw [e3]
          rw [if_pos e1] at h1
          exact h1
        · rw [if_pos e1] at h1
          rw [if_pos e2] at h2
          have hm1 : compareSemver av bv = -1 := by
            rcases compareSemver_range av bv with h | h | h
            · exact h
            · exact absurd h e1
            · rw [h] at h1
              omega
          have hm2 : compareSemver bv cv = -1 := by
            rcases compareSemver_range bv cv with h | h | h
            · exact h
            · exact absurd h e2
            · rw [h] at h2
              omega
          have e3 := compareSemver_neg_trans hm1 hm2
          rw [if_pos (by rw [e3]; decide), e3]
          decide

theorem versionLe_total (lc : String → String → Int)
    (htot : ∀ a b, lc a b ≤ 0 ∨ lc b a ≤ 0) (a b : String) :
    versionLe lc a b ∨ versionLe lc b a :=
  cmpVersionStrings_total lc htot a b

theorem sortVersions_perm (lc : String → String → Int) (l : List String) :
    (sortVersions lc l).Perm l :=
  List.perm_insertionSort (versionLe lc) l

theorem sortVersions_sorted (lc : String → String → Int)
    (htot : ∀ a b, lc a b ≤ 0 ∨ lc b a ≤ 0)
    (htrans : ∀ a b c, lc a b ≤ 0 → lc b c ≤ 0 → lc a c ≤ 0)
    (l : List String) :
    List.Pairwise (versionLe lc) (sortVersions lc l) := by
  haveI : IsTotal String (versionLe lc) :=
    ⟨fun a b => versionLe_total lc htot a b⟩
  haveI : IsTrans String (versionLe lc) :=
    ⟨fun _ _ _ h1 h2 => cmpVersionStrings_le_trans lc htrans h1 h2⟩
  exact List.sorted_insertionSort (versionLe lc) l

theorem comparePrereleaseLists_prefix :
    ∀ (x rest : List String), rest ≠ [] → comparePrereleaseLists x (x ++ rest) = -1
  | [], r, h => by
    cases r with
    | nil => exact absurd rfl h
    | cons d ds => rfl
  | a :: as, r, h => by
    simp only [List.cons_append, comparePrereleaseLists, compareIdentifiers_self,
      if_pos]
    exact comparePrereleaseLists_prefix as r h

theorem string_mk_data (s : String) : String.mk s.data = s := by
  cases s
  rfl

theorem jsTrimChars_eq_self_parts {l : List Char} (h : jsTrimChars l = l) :
    List.dropWhile isWsChar l = l ∧ trimRightChars l = l := by
  unfold jsTrimChars trimLeftChars at h
  have h1 : (List.dropWhile isWsChar l).length ≤ l.length :=
    (List.dropWhile_suffix _).length_le
  have h2 : (trimRightChars (List.dropWhile isWsChar l)).length ≤
      (List.dropWhile isWsChar l).length := by
    unfold trimRightChars
    rw [List.length_reverse]
    exact le_trans (List.dropWhile_suffix _).length_le
      (le_of_eq (List.length_reverse _))
  have h3 := congrArg List.length h
  have hlen : (List.dropWhile isWsChar l).length = l.length := by omega
  have hdrop : List.dropWhile isWsChar l = l := by
    obtain ⟨t, ht⟩ := List.dropWhile_suffix (l := l) isWsChar
    have hlt : t.length = 0 := by
      have := congrArg List.length ht
      rw [List.length_append] at this
      omega
    rw [List.length_eq_zero.mp hlt] at ht
    simpa using ht
  refine ⟨hdrop, ?_⟩
  rw [hdrop] at h
  exact h

theorem jsTrim_parts {s : String} (h : jsTrim s = s) :
    List.dropWhile isWsChar s.data = s.data ∧ trimRightChars s.data = s.data := by
  have hd : jsTrimChars s.data = s.data := congrArg String.data h
  exact jsTrimChars_eq_self_parts hd

theorem caret_append_data (s : String) : ("^" ++ s).data = '^' :: s.data := by
  rw [String.data_append]
  rfl

theorem jsTrim_caret (s : String) (h : jsTrim s = s) :
    jsTrim ("^" ++ s) = "^" ++ s := by
  obtain ⟨hdrop, hright⟩ := jsTrim_parts h
  have hrev : List.dropWhile isWsChar s.data.reverse = s.data.reverse := by
    have h0 : (List.dropWhile isWsChar s.data.reverse).reverse = s.data := hright
    rw [show s.data = s.data.reverse.reverse by simp, List.reverse_inj] at h0
    simpa using h0
  apply String.ext
  rw [caret_append_data]
  show jsTrimChars ('^' :: s.data) = '^' :: s.data
  unfold jsTrimChars trimLeftChars trimRightChars
  rw [List.dropWhile_cons, if_neg (by decide)]
  rw [List.reverse_cons, List.dropWhile_append, hrev]
  by_cases he : s.data.reverse.isEmpty = true
  · rw [if_pos he]
    have hnil : s.data = [] := by
      have := List.isEmpty_iff.mp he
      simpa using this
    simp only [hnil, List.dropWhile, List.reverse_cons, List.reverse_nil,
      List.nil_append]
    decide
  · rw [if_neg he]
    simp

theorem satisfiesRange_exact_single (v : String) (rw0 ev : Option String)
    (c : Comparator) :
    satisfiesRange v
      { type := "exact", raw := rw0, sets := [{ comparators := [c] }],
        exactVersion := ev } =
      (match parseSemver v with
       | none => false
       | some pv => satisfiesComparator pv c) := by
  unfold satisfiesRange
  cases hp : parseSemver v with
  | none => rfl
  | some pv => simp

theorem satisfiesComparator_eq_iff (pv V : SemVersion) (hV : V.prerelease = []) :
    satisfiesComparator pv { op := "=", version := V } = true ↔
      pv.major = V.major ∧ pv.minor = V.minor ∧ pv.patch = V.patch ∧
        pv.prerelease = [] := by
  show (compareSemver pv V == 0) = true ↔ _
  rw [beq_iff_eq, compareSemver_zero_iff, comparePre_zero_iff, hV]
  simp [List.forall₂_nil_right_iff]

/-- A caret-prefixed token compiles through `parseComparatorToken` by
stripping the `^` and expanding the parsed remainder with `expandCaret`. -/
theorem parseComparatorToken_caret (s : String) (tok : TokenInfo)
    (hs : jsTrim s = s) (hp : parseVersionToken s = .ok tok)
    (hany : tok.any = false) :
    parseComparatorToken ("^" ++ s) = .ok (expandCaret tok) := by
  unfold parseComparatorToken
  rw [jsTrim_caret s hs]
  have hdata := caret_append_data s
  have hne : ¬("^" ++ s = "") := by
    intro he
    have := congrArg String.data he
    rw [hdata] at this
    cases this
  rw [if_neg hne]
  have f1 : jsStartsWith ("^" ++ s) ">=" = false := by
    unfold jsStartsWith
    rw [hdata]
    rfl
  have f2 : jsStartsWith ("^" ++ s) "<=" = false := by
    unfold jsStartsWith
    rw [hdata]
    rfl
  have f3 : jsStartsWith ("^" ++ s) ">" = false := by
    unfold jsStartsWith
    rw [hdata]
    rfl
  have f4 : jsStartsWith ("^" ++ s) "<" = false := by
    unfold jsStartsWith
    rw [hdata]
    rfl
  have f5 : jsStartsWith ("^" ++ s) "=" = false := by
    unfold jsStartsWith
    rw [hdata]
    rfl
  have f6 : jsStartsWith ("^" ++ s) "^" = true := by
    unfold jsStartsWith
    rw [hdata]
    rfl
  simp only [f1, f2, f3, f4, f5, f6, Bool.false_eq_true, if_false, if_true]
  have hrest : jsTrim (dropCount 1 ("^" ++ s)) = s := by
    unfold dropCount
    rw [hdata]
    show jsTrim (String.mk s.data) = s
    rw [string_mk_data]
    exact hs
  rw [hrest, hp]
  show (if tok.any = true then pure [] else pure (expandCaret tok) :
    Except String (List Comparator)) = Except.ok (expandCaret tok)
  rw [hany]
  rfl

/-! ## Facts about the insertion-ordered map model and the index builder -/

theorem mapGet_mapSet_self {β : Type} (m : List (String × β)) (k : String) (v : β) :
    mapGet (mapSet m k v) k = some v := by
  induction m with
  | nil => simp [mapGet, mapSet, List.find?]
  | cons p rest ih =>
    obtain ⟨k', v'⟩ := p
    by_cases hk : (k' == k) = true
    · simp [mapSet, hk, mapGet, List.find?]
    · simp only [mapSet, hk, Bool.false_eq_true, if_false]
      simpa [mapGet, List.find?, hk] using ih

theorem mapSet_mapSet {β : Type} (m : List (String × β)) (k : String) (a b : β) :
    mapSet (mapSet m k a) k b = mapSet m k b := by
  induction m with
  | nil => simp [mapSet]
  | cons p rest ih =>
    obtain ⟨k', v'⟩ := p
    by_cases hk : (k' == k) = true
    · simp [mapSet, hk]
    · simp [mapSet, hk, ih]

theorem addLocationEntry_of_mem {arr : List LocationEntry} {x : LocationEntry}
    (hmem : arr.any (fun e => e.location == x.location) = true) :
    addLocationEntry arr x = arr := by
  unfold addLocationEntry
  by_cases hx : x.location = ""
  · rw [if_pos hx]
  · rw [if_neg hx, if_pos hmem]

theorem addLocationEntry_mem (arr : List LocationEntry) (e : LocationEntry)
    (hne : e.location ≠ "") :
    (addLocationEntry arr e).any (fun x => x.location == e.location) = true := by
  unfold addLocationEntry
  rw [if_neg hne]
  by_cases hmem : arr.any (fun x => x.location == e.location) = true
  · rw [if_pos hmem]
    exact hmem
  · rw [if_neg hmem]
    simp [List.any_append]

theorem countLoc_addLocationEntry (arr : List LocationEntry) (e : LocationEntry)
    (hne : e.location ≠ "") (hcount : countLoc arr e.location ≤ 1) :
    countLoc (addLocationEntry arr e) e.location = 1 := by
  unfold addLocationEntry countLoc
  rw [if_neg hne]
  by_cases hmem : arr.any (fun x => x.location == e.location) = true
  · rw [if_pos hmem]
    obtain ⟨x, hx, hxe⟩ := List.any_eq_true.mp hmem
    have h1 : x ∈ arr.filter (fun y => y.location == e.location) :=
      List.mem_filter.mpr ⟨hx, hxe⟩
    have h2 : 1 ≤ (arr.filter (fun y => y.location == e.location)).length :=
      List.length_pos_of_mem h1
    unfold countLoc at hcount
    omega
  · rw [if_neg hmem]
    have hnil : arr.filter (fun y => y.location == e.location) = [] := by
      rw [List.filter_eq_nil_iff]
      intro y hy
      intro hye
      exact hmem (List.any_eq_true.mpr ⟨y, hy, hye⟩)
    rw [List.filter_append, hnil]
    simp

theorem packageBucket_addFoundPackage (store : PackageStore) (n v : String)
    (e : LocationEntry) (hn : n ≠ "") (hv : v ≠ "") (he : e.location ≠ "") :
    packageBucket (addFoundPackage store n v e) n v =
      addLocationEntry (packageBucket store n v) e := by
  unfold addFoundPackage packageBucket
  rw [if_neg (by simp [hn, hv]), if_neg he]
  rw [mapGet_mapSet_self, Option.getD_some, mapGet_mapSet_self, Option.getD_some]

/-! ## Facts about the Matcher's version loop -/

theorem matchLoop_matched (rangeInfo : VRange) (byVer : VersionBuckets) :
    ∀ (versions : List String) (st : MatchState),
      (versions.foldl (matchStep rangeInfo byVer) st).matchedVersions =
        st.matchedVersions ++
          versions.filter (fun v => satisfiesRange v rangeInfo) := by
  intro versions
  induction versions with
  | nil =>
    intro st
    simp
  | cons v vs ih =>
    intro st
    rw [List.foldl_cons, ih]
    unfold matchStep
    by_cases h : satisfiesRange v rangeInfo = true
    · simp [h, List.filter_cons]
    · simp [h, List.filter_cons]

theorem matchedVersions_eq (lc : String → String → Int) (spec : SpecReq)
    (installed : PackageStore) :
    (matchOne lc spec installed).matchedVersions =
      (matchInstalledVersions lc spec installed).filter
        (fun v => satisfiesRange v (matchRangeInfo spec)) := by
  show (matchFinalState lc spec installed).matchedVersions = _
  unfold matchFinalState
  rw [matchLoop_matched]
  simp

theorem satisfiesRange_literal_raw (v : String) (r : VRange)
    (h : r.type = "literal") :
    satisfiesRange v r = (r.raw == some v) := by
  unfold satisfiesRange
  rw [h]
  rfl

/-! # The claims

Each claim of the specification is settled by exactly one theorem below
(with a witness instantiating its hypotheses, and a counterexample where the
claim as stated fails on the code).
-/

/-- C1 (counterexample): the comparison is not a strict total order on
versions up to build metadata. The Version Parser accepts both
`"1.0.0-01"` and `"1.0.0-1"`; the two parsed versions differ in their
prerelease identifiers (not merely in build metadata), yet `compareSemver`
returns `0` for them, because numeric identifiers with leading zeros
collapse to the same numeric value. -/
theorem compareSemver_collapses_distinct_prereleases :
    parseSemver "1.0.0-01" =
      some { major := 1, minor := 0, patch := 0, prerelease := ["01"], build := [],
             raw := "1.0.0-01" } ∧
    parseSemver "1.0.0-1" =
      some { major := 1, minor := 0, patch := 0, prerelease := ["1"], build := [],
             raw := "1.0.0-1" } ∧
    compareSemver
      { major := 1, minor := 0, patch := 0, prerelease := ["01"], build := [],
        raw := "1.0.0-01" }
      { major := 1, minor := 0, patch := 0, prerelease := ["1"], build := [],
        raw := "1.0.0-1" } = 0 ∧
    (["01"] : List String) ≠ ["1"] := by
  refine ⟨by decide, by decide, by decide, by decide⟩

set_option exponentiation.threshold 1100 in
/-- C1 (amended): `compareSemver` is a total preorder — antisymmetric,
transitive — whose induced equivalence identifies versions up to build
metadata and up to the `Number.parseInt` double value of numeric prerelease
identifiers (not up to build metadata alone); it compares major, then
minor, then patch numerically, a version without prerelease identifiers is
greater than one with them, prerelease identifiers compare pairwise
left-to-right (numeric ones by their `parseInt` double value — so distinct
digit strings whose doubles coincide, such as `9007199254740993` and
`9007199254740992` which both round to `2^53`, compare equal — numeric
before alphanumeric, alphanumeric lexicographically), a proper-prefix
prerelease sequence sorts lower, build metadata never affects the result,
and `1.0.0-alpha < 1.0.0-alpha.1 < 1.0.0-beta < 1.0.0 < 1.0.1`
on parser-accepted strings. -/
theorem compareSemver_order_spec :
    (∀ a b : SemVersion, compareSemver a b = -(compareSemver b a)) ∧
    (∀ a b c : SemVersion,
      compareSemver a b = -1 → compareSemver b c = -1 → compareSemver a c = -1) ∧
    (∀ a b : SemVersion, compareSemver a b = 0 ↔
      a.major = b.major ∧ a.minor = b.minor ∧ a.patch = b.patch ∧
        List.Forall₂ (fun x y => compareIdentifiers x y = 0) a.prerelease b.prerelease) ∧
    (∀ a b : SemVersion, ∀ x y : List String,
      compareSemver { a with build := x } { b with build := y } = compareSemver a b) ∧
    (∀ a b : SemVersion, a.major < b.major → compareSemver a b = -1) ∧
    (∀ a b : SemVersion, a.major = b.major → a.minor < b.minor →
      compareSemver a b = -1) ∧
    (∀ a b : SemVersion, a.major = b.major → a.minor = b.minor →
      a.patch < b.patch → compareSemver a b = -1) ∧
    (∀ a b : SemVersion, a.major = b.major → a.minor = b.minor →
      a.patch = b.patch → a.prerelease = [] → b.prerelease ≠ [] →
      compareSemver a b = 1) ∧
    (∀ s t : String, isNumericId s = true → isNumericId t = true →
      jsParseInt s.data < jsParseInt t.data → compareIdentifiers s t = -1) ∧
    (∀ s t : String, isNumericId s = true → isNumericId t = false →
      compareIdentifiers s t = -1) ∧
    (∀ s t : String, isNumericId s = false → isNumericId t = false →
      jsStringLt s t = true → compareIdentifiers s t = -1) ∧
    (∀ a b : SemVersion, a.major = b.major → a.minor = b.minor →
      a.patch = b.patch → a.prerelease ≠ [] →
      ∀ rest, rest ≠ [] → b.prerelease = a.prerelease ++ rest →
      compareSemver a b = -1) ∧
    (parseSemver "1.0.0-alpha" =
        some { major := 1, minor := 0, patch := 0, prerelease := ["alpha"], build := [],
               raw := "1.0.0-alpha" } ∧
      parseSemver "1.0.0-alpha.1" =
        some { major := 1, minor := 0, patch := 0, prerelease := ["alpha", "1"],
               build := [], raw := "1.0.0-alpha.1" } ∧
      parseSemver "1.0.0-beta" =
        some { major := 1, minor := 0, patch := 0, prerelease := ["beta"], build := [],
               raw := "1.0.0-beta" } ∧
      parseSemver "1.0.0" =
        some { major := 1, minor := 0, patch := 0, prerelease := [], build := [],
               raw := "1.0.0" } ∧
      parseSemver "1.0.1" =
        some { major := 1, minor := 0, patch := 1, prerelease := [], build := [],
               raw := "1.0.1" } ∧
      compareSemver
        { major := 1, minor := 0, patch := 0, prerelease := ["alpha"], build := [],
          raw := "1.0.0-alpha" }
        { major := 1, minor := 0, patch := 0, prerelease := ["alpha", "1"], build := [],
          raw := "1.0.0-alpha.1" } = -1 ∧
      compareSemver
        { major := 1, minor := 0, patch := 0, prerelease := ["alpha", "1"], build := [],
          raw := "1.0.0-alpha.1" }
        { major := 1, minor := 0, patch := 0, prerelease := ["beta"], build := [],
          raw := "1.0.0-beta" } = -1 ∧
      compareSemver
        { major := 1, minor := 0, patch := 0, prerelease := ["beta"], build := [],
          raw := "1.0.0-beta" }
        { major := 1, minor := 0, patch := 0, prerelease := [], build := [],
          raw := "1.0.0" } = -1 ∧
      compareSemver
        { major := 1, minor := 0, patch := 0, prerelease := [], build := [],
          raw := "1.0.0" }
        { major := 1, minor := 0, patch := 1, prerelease := [], build := [],
          raw := "1.0.1" } = -1) ∧
    (parseSemver "1.0.0-9007199254740993" =
        some { major := 1, minor := 0, patch := 0,
               prerelease := ["9007199254740993"], build := [],
               raw := "1.0.0-9007199254740993" } ∧
      parseSemver "1.0.0-9007199254740992" =
        some { major := 1, minor := 0, patch := 0,
               prerelease := ["9007199254740992"], build := [],
               raw := "1.0.0-9007199254740992" } ∧
      compareSemver
        { major := 1, minor := 0, patch := 0,
          prerelease := ["9007199254740993"], build := [],
          raw := "1.0.0-9007199254740993" }
        { major := 1, minor := 0, patch := 0,
          prerelease := ["9007199254740992"], build := [],
          raw := "1.0.0-9007199254740992" } = 0 ∧
      (["9007199254740993"] : List String) ≠ ["9007199254740992"]) := by
  refine ⟨compareSemver_antisym,
    fun a b c h1 h2 => compareSemver_neg_trans h1 h2,
    fun a b => by rw [compareSemver_zero_iff, comparePre_zero_iff],
    fun a b x y => rfl,
    fun a b h => (compareSemver_neg_iff a b).mpr (Or.inl h),
    fun a b h1 h2 => (compareSemver_neg_iff a b).mpr (Or.inr (Or.inl ⟨h1, h2⟩)),
    fun a b h1 h2 h3 =>
      (compareSemver_neg_iff a b).mpr (Or.inr (Or.inr (Or.inl ⟨h1, h2, h3⟩))),
    fun a b h1 h2 h3 ha hb => ?_,
    fun s t hs ht hv => ?_,
    fun s t hs ht => ?_,
    fun s t hs ht h => ?_,
    fun a b h1 h2 h3 hne rest hr hb => ?_,
    by decide, by decide⟩
  · unfold compareSemver
    rw [if_neg (by omega), if_neg (by omega), if_neg (by omega), ha]
    obtain ⟨d, ds, hd⟩ := List.exists_cons_of_ne_nil hb
    rw [hd]
    rfl
  · have hne : s ≠ t := by
      intro he
      rw [he] at hv
      exact Nat.lt_irrefl _ hv
    unfold compareIdentifiers
    simp [hne, hs, ht, hv, Nat.ne_of_lt hv]
  · have hne : s ≠ t := by
      intro he
      rw [he, ht] at hs
      cases hs
    unfold compareIdentifiers
    simp [hne, hs, ht]
  · have hlt := (jsStringLt_iff s t).mp h
    have hne : s ≠ t := by
      intro he
      subst he
      rw [(cmpCharList_eq_iff s.data s.data).mpr rfl] at hlt
      cases hlt
    unfold compareIdentifiers
    simp [hne, hs, ht, h]
  · unfold compareSemver
    rw [if_neg (by omega), if_neg (by omega), if_neg (by omega), hb]
    obtain ⟨d, ds, hd⟩ := List.exists_cons_of_ne_nil hne
    rw [hd]
    show comparePrereleaseLists (d :: ds) ((d :: ds) ++ rest) = -1
    exact comparePrereleaseLists_prefix _ rest hr

/-- C1 (witness): the amended order facts applied at concrete parsed
versions — transitivity through `1.0.0-alpha < 1.0.0-beta < 1.0.1`. -/
theorem compareSemver_order_spec_witness :
    compareSemver
      { major := 1, minor := 0, patch := 0, prerelease := ["alpha"], build := [],
        raw := "1.0.0-alpha" }
      { major := 1, minor := 0, patch := 1, prerelease := [], build := [],
        raw := "1.0.1" } = -1 :=
  compareSemver_order_spec.2.1 _
    { major := 1, minor := 0, patch := 0, prerelease := ["beta"], build := [],
      raw := "1.0.0-beta" } _
    (by decide) (by decide)

/-- C2 (counterexample): a request compiled from `"1.2.3"` is not a
byte-for-byte match on the installed version string: the Satisfaction
Evaluator parses the installed string semantically, so `"v1.2.3"` — a
different byte string — also satisfies it. -/
theorem exactRange_not_byte_for_byte :
    satisfiesRange "v1.2.3" (parseVersionRange (some "1.2.3")) = true ∧
    "v1.2.3" ≠ "1.2.3" := by
  refine ⟨by decide, by decide⟩

/-- C2 (amended): compiling `"1.2.3"` yields kind Exact with one OR-branch
holding exactly one `=` comparator; the compiled request is satisfied by
exactly the installed strings that parse to major 1, minor 2, patch 3 with
no prerelease identifiers (build metadata and a leading `v` are ignored) —
in particular by `"1.2.3"` and not by `"1.2.3-rc.1"` or `"1.2.30"`; and for
every compiled specifier, the kind is Exact exactly when the sets have the
one-branch one-`=`-comparator shape. -/
theorem exactRange_spec :
    (parseVersionRange (some "1.2.3")).type = "exact" ∧
    (parseVersionRange (some "1.2.3")).sets =
      [{ comparators :=
          [{ op := "=",
             version := { major := 1, minor := 2, patch := 3, prerelease := [],
                          build := [], raw := "1.2.3" } }] }] ∧
    (∀ v, satisfiesRange v (parseVersionRange (some "1.2.3")) = true ↔
      ∃ pv, parseSemver v = some pv ∧ pv.major = 1 ∧ pv.minor = 2 ∧ pv.patch = 3 ∧
        pv.prerelease = []) ∧
    satisfiesRange "1.2.3" (parseVersionRange (some "1.2.3")) = true ∧
    satisfiesRange "1.2.3-rc.1" (parseVersionRange (some "1.2.3")) = false ∧
    satisfiesRange "1.2.30" (parseVersionRange (some "1.2.3")) = false ∧
    (∀ raw, (parseVersionRange raw).type = "exact" ↔
      ∃ c, (parseVersionRange raw).sets = [{ comparators := [c] }] ∧ c.op = "=") := by
  have hr : parseVersionRange (some "1.2.3") =
      { type := "exact", raw := some "1.2.3",
        sets := [{ comparators :=
          [{ op := "=",
             version := { major := 1, minor := 2, patch := 3, prerelease := [],
                          build := [], raw := "1.2.3" } }] }],
        exactVersion := some "1.2.3" } := by decide
  refine ⟨by rw [hr], by rw [hr], fun v => ?_, by decide, by decide, by decide,
    fun raw => ?_⟩
  · rw [hr, satisfiesRange_exact_single]
    cases hp : parseSemver v with
    | none =>
      simp only
      constructor
      · intro h
        cases h
      · rintro ⟨pv', hpv', -⟩
        cases hpv'
    | some pv =>
      simp only
      rw [satisfiesComparator_eq_iff _ _ rfl]
      constructor
      · intro h
        exact ⟨pv, rfl, h.1, h.2.1, h.2.2.1, h.2.2.2⟩
      · rintro ⟨pv', hpv', h1, h2, h3, h4⟩
        cases hpv'
        exact ⟨h1, h2, h3, h4⟩
  · cases raw with
    | none => simp [parseVersionRange, parseVersionRangeW]
    | some r =>
      simp only [parseVersionRange, parseVersionRangeW]
      split
      · simp
      · split
        · split
          · next hall =>
            constructor
            · intro h
              simp at h
            · rintro ⟨c, hc, -⟩
              rename_i sets0 heq0
              have hc' : sets0 = [{ comparators := [c] }] := hc
              rw [hc'] at hall
              simp at hall
          · split
            · next cvar heq hallneg =>
              split
              · next hop2 =>
                constructor
                · intro _
                  exact ⟨cvar, rfl, hop2⟩
                · intro _
                  rfl
              · next hop2 =>
                constructor
                · intro h
                  simp at h
                · rintro ⟨c, hc, hcop⟩
                  obtain rfl : cvar = c := by simpa using hc
                  exact absurd hcop hop2
            · next hne hdef =>
              constructor
              · intro h
                simp at h
              · rintro ⟨c, hc, -⟩
                exact (hdef c hc).elim
        · split
          · simp
          · simp

/-- C2 (witness): the satisfaction characterization instantiated at the
installed string `"1.2.3"`, and the exactness shape at `"1.2.3"`. -/
theorem exactRange_spec_witness :
    satisfiesRange "1.2.3" (parseVersionRange (some "1.2.3")) = true :=
  (exactRange_spec.2.2.1 "1.2.3").mpr
    ⟨{ major := 1, minor := 2, patch := 3, prerelease := [], build := [],
       raw := "1.2.3" }, by decide, rfl, rfl, rfl, rfl⟩

/-- C3 (counterexample): the caret floor is not `>= X` itself including X's
prerelease identifiers — compiling `"^1.2.3-rc.1"` produces the floor
`>= 1.2.3` with the prerelease stripped, and consequently the compiled
range is not satisfied by `1.2.3-rc.1` itself, which the claimed floor
would accept. -/
theorem caretFloor_strips_prerelease :
    (parseVersionRange (some "^1.2.3-rc.1")).sets =
      [{ comparators :=
          [{ op := ">=",
             version := { major := 1, minor := 2, patch := 3, prerelease := [],
                          build := [], raw := "1.2.3" } },
           { op := "<",
             version := { major := 2, minor := 0, patch := 0, prerelease := [],
                          build := [], raw := "2.0.0" } }] }] ∧
    satisfiesRange "1.2.3-rc.1" (parseVersionRange (some "^1.2.3-rc.1")) = false := by
  refine ⟨by decide, by decide⟩

/-- C3 (amended): for every non-wildcard version token X accepted by the
token parser, compiling `^X` yields exactly two comparators in one
RangeSet: the floor `>=` X's major.minor.patch with prerelease and build
metadata stripped (not X itself), and the ceiling `<` (X.major+1).0.0 when
X.major > 0, else `<` X.major.(X.minor+1).0 when X.minor > 0, else
`<` X.major.X.minor.(X.patch+1); consequently `^1.2.3` is satisfied by
1.2.3 and 1.9.9 but not 2.0.0 or 1.2.2, and `^0.2.3` is satisfied by
0.2.3 and 0.2.9 but not 0.3.0. -/
theorem caretExpansion_spec :
    (∀ (s : String) (tok : TokenInfo), jsTrim s = s →
      parseVersionToken s = .ok tok → tok.any = false →
      parseComparatorToken ("^" ++ s) = .ok
        [{ op := ">=",
           version := { major := tok.version.major, minor := tok.version.minor,
                        patch := tok.version.patch, prerelease := [], build := [],
                        raw := mmpRaw tok.version.major tok.version.minor
                          tok.version.patch } },
         { op := "<",
           version :=
             if 0 < tok.version.major then
               { major := tok.version.major + 1, minor := 0, patch := 0,
                 prerelease := [], build := [],
                 raw := mmpRaw (tok.version.major + 1) 0 0 }
             else if 0 < tok.version.minor then
               { major := tok.version.major, minor := tok.version.minor + 1,
                 patch := 0, prerelease := [], build := [],
                 raw := mmpRaw tok.version.major (tok.version.minor + 1) 0 }
             else
               { major := tok.version.major, minor := tok.version.minor,
                 patch := tok.version.patch + 1, prerelease := [], build := [],
                 raw := mmpRaw tok.version.major tok.version.minor
                   (tok.version.patch + 1) } }]) ∧
    (parseVersionRange (some "^1.2.3")).sets =
      [{ comparators :=
          [{ op := ">=",
             version := { major := 1, minor := 2, patch := 3, prerelease := [],
                          build := [], raw := "1.2.3" } },
           { op := "<",
             version := { major := 2, minor := 0, patch := 0, prerelease := [],
                          build := [], raw := "2.0.0" } }] }] ∧
    satisfiesRange "1.2.3" (parseVersionRange (some "^1.2.3")) = true ∧
    satisfiesRange "1.9.9" (parseVersionRange (some "^1.2.3")) = true ∧
    satisfiesRange "2.0.0" (parseVersionRange (some "^1.2.3")) = false ∧
    satisfiesRange "1.2.2" (parseVersionRange (some "^1.2.3")) = false ∧
    (parseVersionRange (some "^0.2.3")).sets =
      [{ comparators :=
          [{ op := ">=",
             version := { major := 0, minor := 2, patch := 3, prerelease := [],
                          build := [], raw := "0.2.3" } },
           { op := "<",
             version := { major := 0, minor := 3, patch := 0, prerelease := [],
                          build := [], raw := "0.3.0" } }] }] ∧
    satisfiesRange "0.2.3" (parseVersionRange (some "^0.2.3")) = true ∧
    satisfiesRange "0.2.9" (parseVersionRange (some "^0.2.3")) = true ∧
    satisfiesRange "0.3.0" (parseVersionRange (some "^0.2.3")) = false ∧
    (parseVersionRange (some "^0.0.3")).sets =
      [{ comparators :=
          [{ op := ">=",
             version := { major := 0, minor := 0, patch := 3, prerelease := [],
                          build := [], raw := "0.0.3" } },
           { op := "<",
             version := { major := 0, minor := 0, patch := 4, prerelease := [],
                          build := [], raw := "0.0.4" } }] }] := by
  refine ⟨fun s tok hs hp hany => ?_, by decide, by decide, by decide, by decide,
    by decide, by decide, by decide, by decide, by decide, by decide⟩
  rw [parseComparatorToken_caret s tok hs hp hany]
  have hexp : expandCaret tok =
      [{ op := ">=",
         version := { major := tok.version.major, minor := tok.version.minor,
                      patch := tok.version.patch, prerelease := [], build := [],
                      raw := mmpRaw tok.version.major tok.version.minor
                        tok.version.patch } },
       { op := "<",
         version :=
           if 0 < tok.version.major then
             { major := tok.version.major + 1, minor := 0, patch := 0,
               prerelease := [], build := [],
               raw := mmpRaw (tok.version.major + 1) 0 0 }
           else if 0 < tok.version.minor then
             { major := tok.version.major, minor := tok.version.minor + 1,
               patch := 0, prerelease := [], build := [],
               raw := mmpRaw tok.version.major (tok.version.minor + 1) 0 }
           else
             { major := tok.version.major, minor := tok.version.minor,
               patch := tok.version.patch + 1, prerelease := [], build := [],
               raw := mmpRaw tok.version.major tok.version.minor
                 (tok.version.patch + 1) } }] := by
    unfold expandCaret
    rw [hany]
    rfl
  rw [hexp]

/-- C3 (witness): the caret expansion rule applied at the concrete token
parsed from `"1.2.3"`. -/
theorem caretExpansion_spec_witness :
    parseComparatorToken ("^" ++ "1.2.3") = .ok
      [{ op := ">=",
         version := { major := 1, minor := 2, patch := 3, prerelease := [],
                      build := [], raw := "1.2.3" } },
       { op := "<",
         version := { major := 2, minor := 0, patch := 0, prerelease := [],
                      build := [], raw := "2.0.0" } }] := by
  have h := caretExpansion_spec.1 "1.2.3"
    { any := false, precision := 3, wildcardMinor := false, wildcardPatch := false,
      version := { major := 1, minor := 2, patch := 3, prerelease := [], build := [],
                   raw := "1.2.3" } }
    (by decide) rfl rfl
  rw [h]
  rfl

/-- C4: for every hyphen range `A - B` with parseable non-wildcard bounds,
compilation yields `[>= lower(A), upper(B)]` with an upper bound asymmetric
in B's precision: a reduced-precision (or wildcard-component) B produces an
exclusive ceiling one unit above its last specified component, while a
full-precision B produces an inclusive `<=` ceiling; `"1.2 - 1.4"` compiles
with `< 1.5.0` (satisfied by 1.2.0 through 1.4.x, not 1.5.0, not 1.1.9),
while `"1.2.3 - 1.4.5"` compiles with `<= 1.4.5`. -/
theorem hyphenRange_spec :
    (∀ aTok bTok : TokenInfo, aTok.any = false → bTok.any = false →
      hyphenComparators aTok bTok =
        [{ op := ">=",
           version := { major := aTok.version.major, minor := aTok.version.minor,
                        patch := aTok.version.patch, prerelease := [], build := [],
                        raw := mmpRaw aTok.version.major aTok.version.minor
                          aTok.version.patch } },
         if bTok.precision = 1 ∨ bTok.wildcardMinor = true then
           { op := "<",
             version := { major := bTok.version.major + 1, minor := 0, patch := 0,
                          prerelease := [], build := [],
                          raw := mmpRaw (bTok.version.major + 1) 0 0 } }
         else if bTok.precision = 2 ∨ bTok.wildcardPatch = true then
           { op := "<",
             version := { major := bTok.version.major, minor := bTok.version.minor + 1,
                          patch := 0, prerelease := [], build := [],
                          raw := mmpRaw bTok.version.major (bTok.version.minor + 1) 0 } }
         else
           { op := "<=",
             version := { major := bTok.version.major, minor := bTok.version.minor,
                          patch := bTok.version.patch, prerelease := [], build := [],
                          raw := mmpRaw bTok.version.major bTok.version.minor
                            bTok.version.patch } }]) ∧
    (parseVersionRange (some "1.2 - 1.4")).sets =
      [{ comparators :=
          [{ op := ">=",
             version := { major := 1, minor := 2, patch := 0, prerelease := [],
                          build := [], raw := "1.2.0" } },
           { op := "<",
             version := { major := 1, minor := 5, patch := 0, prerelease := [],
                          build := [], raw := "1.5.0" } }] }] ∧
    satisfiesRange "1.2.0" (parseVersionRange (some "1.2 - 1.4")) = true ∧
    satisfiesRange "1.3.7" (parseVersionRange (some "1.2 - 1.4")) = true ∧
    satisfiesRange "1.4.9" (parseVersionRange (some "1.2 - 1.4")) = true ∧
    satisfiesRange "1.5.0" (parseVersionRange (some "1.2 - 1.4")) = false ∧
    satisfiesRange "1.1.9" (parseVersionRange (some "1.2 - 1.4")) = false ∧
    (parseVersionRange (some "1.2.3 - 1.4.5")).sets =
      [{ comparators :=
          [{ op := ">=",
             version := { major := 1, minor := 2, patch := 3, prerelease := [],
                          build := [], raw := "1.2.3" } },
           { op := "<=",
             version := { major := 1, minor := 4, patch := 5, prerelease := [],
                          build := [], raw := "1.4.5" } }] }] ∧
    satisfiesRange "1.2.3" (parseVersionRange (some "1.2.3 - 1.4.5")) = true ∧
    satisfiesRange "1.4.5" (parseVersionRange (some "1.2.3 - 1.4.5")) = true ∧
    satisfiesRange "1.4.6" (parseVersionRange (some "1.2.3 - 1.4.5")) = false := by
  refine ⟨fun aTok bTok ha hb => ?_, by decide, by decide, by decide, by decide,
    by decide, by decide, by decide, by decide, by decide, by decide⟩
  unfold hyphenComparators
  rw [ha, hb]
  simp only [Bool.and_self, Bool.false_eq_true, if_false, Bool.not_false, if_true]
  by_cases h1 : bTok.precision = 1 ∨ bTok.wildcardMinor = true
  · have hb1 : (bTok.precision == 1 || bTok.wildcardMinor) = true := by
      rcases h1 with h | h
      · simp [h]
      · simp [h]
    rw [if_pos hb1, if_pos h1]
    rfl
  · have hb1 : (bTok.precision == 1 || bTok.wildcardMinor) = false := by
      rcases not_or.mp h1 with ⟨hp, hw⟩
      simp [hp, hw]
    rw [hb1]
    simp only [Bool.false_eq_true, if_false]
    rw [if_neg h1]
    by_cases h2 : bTok.precision = 2 ∨ bTok.wildcardPatch = true
    · have hb2 : (bTok.precision == 2 || bTok.wildcardPatch) = true := by
        rcases h2 with h | h
        · simp [h]
        · simp [h]
      rw [if_pos hb2, if_pos h2]
      rfl
    · have hb2 : (bTok.precision == 2 || bTok.wildcardPatch) = false := by
        rcases not_or.mp h2 with ⟨hp, hw⟩
        simp [hp, hw]
      rw [hb2]
      simp only [Bool.false_eq_true, if_false]
      rw [if_neg h2]
      rfl

/-- C4 (witness): the hyphen-range rule applied at the concrete tokens
parsed from `"1.2"` and `"1.4"` — a reduced-precision upper bound giving
the exclusive ceiling `< 1.5.0`. -/
theorem hyphenRange_spec_witness :
    hyphenComparators
      { any := false, precision := 2, wildcardMinor := false, wildcardPatch := true,
        version := { major := 1, minor := 2, patch := 0, prerelease := [], build := [],
                     raw := "1.2" } }
      { any := false, precision := 2, wildcardMinor := false, wildcardPatch := true,
        version := { major := 1, minor := 4, patch := 0, prerelease := [], build := [],
                     raw := "1.4" } } =
      [{ op := ">=",
         version := { major := 1, minor := 2, patch := 0, prerelease := [], build := [],
                      raw := "1.2.0" } },
       { op := "<",
         version := { major := 1, minor := 5, patch := 0, prerelease := [], build := [],
                      raw := "1.5.0" } }] := by
  have h := hyphenRange_spec.1
    { any := false, precision := 2, wildcardMinor := false, wildcardPatch := true,
      version := { major := 1, minor := 2, patch := 0, prerelease := [], build := [],
                   raw := "1.2" } }
    { any := false, precision := 2, wildcardMinor := false, wildcardPatch := true,
      version := { major := 1, minor := 4, patch := 0, prerelease := [], build := [],
                   raw := "1.4" } }
    rfl rfl
  rw [h]
  decide

/-- C5: for every specifier whose compilation hits a structural error (any
`buildRangeSets` failure — too many segments, non-numeric component,
unsupported operator), compilation never raises: the result is a
CompiledSpecifier of kind Literal holding the trimmed original text,
satisfaction holds exactly for the installed version string equal to that
text, the warning (deduplicated by message) is recorded once, a recompile
from any state already holding the message changes nothing, and after any
positive number of compilations of the same malformed specifier exactly one
warning is recorded. -/
theorem literalFallback_spec :
    ∀ (raw msg : String), buildRangeSets (jsTrim raw) = .error msg →
      ¬jsTrim raw = "" → isWildcardToken (jsTrim raw) = false →
      ∀ w : List String,
        (parseVersionRangeW (some raw) w).1 =
          { type := "literal", raw := some (jsTrim raw), sets := [],
            exactVersion := none } ∧
        (∀ v, satisfiesRange v (parseVersionRangeW (some raw) w).1 = true ↔
          v = jsTrim raw) ∧
        (parseVersionRangeW (some raw) w).2 =
          (if rangeWarningMessage (jsTrim raw) msg ∈ w then w
           else w ++ [rangeWarningMessage (jsTrim raw) msg]) ∧
        parseVersionRangeW (some raw) ((parseVersionRangeW (some raw) w).2) =
          ((parseVersionRangeW (some raw) w).1, (parseVersionRangeW (some raw) w).2) ∧
        (∀ n, iterCompileWarnings raw (n + 1) =
            [rangeWarningMessage (jsTrim raw) msg] ∧
          (iterCompileWarnings raw (n + 1)).count
            (rangeWarningMessage (jsTrim raw) msg) = 1) := by
  intro raw msg herr hne hwild w
  have hcond : ¬((decide (jsTrim raw = "") || isWildcardToken (jsTrim raw)) = true) := by
    simp [hne, hwild]
  have hstep : ∀ w' : List String,
      parseVersionRangeW (some raw) w' =
        ({ type := "literal", raw := some (jsTrim raw), sets := [],
           exactVersion := none },
         if rangeWarningMessage (jsTrim raw) msg ∈ w' then w'
         else w' ++ [rangeWarningMessage (jsTrim raw) msg]) := by
    intro w'
    simp only [parseVersionRangeW]
    rw [if_neg hcond, herr]
    by_cases hm : rangeWarningMessage (jsTrim raw) msg ∈ w'
    · rw [if_pos hm]
      show (if rangeWarningMessage (jsTrim raw) msg ∈ w' then
          (({ type := "literal", raw := some (jsTrim raw), sets := [],
              exactVersion := none } : VRange), w')
        else
          (({ type := "literal", raw := some (jsTrim raw), sets := [],
              exactVersion := none } : VRange),
           w' ++ [rangeWarningMessage (jsTrim raw) msg])) = _
      rw [if_pos hm]
    · rw [if_neg hm]
      show (if rangeWarningMessage (jsTrim raw) msg ∈ w' then
          (({ type := "literal", raw := some (jsTrim raw), sets := [],
              exactVersion := none } : VRange), w')
        else
          (({ type := "literal", raw := some (jsTrim raw), sets := [],
              exactVersion := none } : VRange),
           w' ++ [rangeWarningMessage (jsTrim raw) msg])) = _
      rw [if_neg hm]
  have hiter : ∀ n, iterCompileWarnings raw (n + 1) =
      [rangeWarningMessage (jsTrim raw) msg] := by
    intro n
    induction n with
    | zero =>
      show (parseVersionRangeW (some raw) (iterCompileWarnings raw 0)).2 = _
      rw [show iterCompileWarnings raw 0 = [] from rfl, hstep []]
      simp
    | succ k ih =>
      show (parseVersionRangeW (some raw) (iterCompileWarnings raw (k + 1))).2 = _
      rw [ih, hstep [rangeWarningMessage (jsTrim raw) msg]]
      simp
  refine ⟨by rw [hstep w], fun v => ?_, by rw [hstep w], ?_, fun n => ⟨hiter n, ?_⟩⟩
  · rw [hstep w]
    show satisfiesRange v
      { type := "literal", raw := some (jsTrim raw), sets := [],
        exactVersion := none } = true ↔ v = jsTrim raw
    unfold satisfiesRange
    rw [if_neg (by decide : ¬((("literal" : String) == "any") = true))]
    rw [if_pos (by decide : (("literal" : String) == "literal") = true)]
    rw [beq_iff_eq, Option.some_inj]
    exact eq_comm
  · rw [hstep w]
    show parseVersionRangeW (some raw) _ = _
    rw [hstep]
    have hm2 : rangeWarningMessage (jsTrim raw) msg ∈
        (if rangeWarningMessage (jsTrim raw) msg ∈ w then w
         else w ++ [rangeWarningMessage (jsTrim raw) msg]) := by
      by_cases hm : rangeWarningMessage (jsTrim raw) msg ∈ w
      · rw [if_pos hm]
        exact hm
      · rw [if_neg hm]
        simp
    rw [if_pos hm2]
  · rw [hiter n]
    simp

/-- C5 (witness): the literal fallback at the malformed specifier
`"1.2.3.4"` (too many version segments), compiled five times from a fresh
state. -/
theorem literalFallback_spec_witness :
    (parseVersionRangeW (some "1.2.3.4") []).1 =
      { type := "literal", raw := some "1.2.3.4", sets := [],
        exactVersion := none } ∧
    satisfiesRange "1.2.3.4" (parseVersionRangeW (some "1.2.3.4") []).1 = true ∧
    iterCompileWarnings "1.2.3.4" 5 =
      ["Warning: could not parse version range \"1.2.3.4\": too many version segments in \"1.2.3.4\""] := by
  have h := literalFallback_spec "1.2.3.4"
    "too many version segments in \"1.2.3.4\"" rfl (by decide) (by decide) []
  exact ⟨h.1, (h.2.1 "1.2.3.4").mpr (by decide), (h.2.2.2.2 4).1⟩

/-- C6 (counterexample): the Matcher's sort does not place unparseable
versions after parseable ones — the comparator returns 1 when only its left
argument parses, before the collation is ever consulted, so the unparseable
`"zzz"` is placed before the parseable `"1.0.0"` under the concrete sample
collation and equally under the constant-zero collation. -/
theorem sortVersions_unparseable_first :
    sortVersions codePointNumericCollation ["1.0.0", "zzz"] = ["zzz", "1.0.0"] ∧
    sortVersions (fun _ _ => 0) ["1.0.0", "zzz"] = ["zzz", "1.0.0"] ∧
    cmpVersionStrings (fun _ _ => 0) "1.0.0" "zzz" = 1 ∧
    parseSemver "zzz" = none ∧
    (parseSemver "1.0.0").isSome = true := by
  refine ⟨by decide, by decide, by decide, by decide, by decide⟩

/-- C6 (amended): for every collation `lc` that is a total preorder — as the
host's locale- and ICU-dependent `localeCompare(_, undefined,
{ numeric: true })` is — the Matcher's sorted output is a permutation of its
input that orders any two parseable versions by semantic comparison, orders
any two versions not parseable as semver by the collation `lc`, and places
every unparseable version before every parseable one. -/
theorem sortVersions_spec :
    ∀ lc : String → String → Int,
      (∀ a b, lc a b ≤ 0 ∨ lc b a ≤ 0) →
      (∀ a b c, lc a b ≤ 0 → lc b c ≤ 0 → lc a c ≤ 0) →
      ∀ l : List String,
        (sortVersions lc l).Perm l ∧
        List.Pairwise (fun a b =>
          (∀ va vb, parseSemver a = some va → parseSemver b = some vb →
            compareSemver va vb ≤ 0) ∧
          (parseSemver a = none → parseSemver b = none → lc a b ≤ 0) ∧
          (parseSemver b = none → parseSemver a = none)) (sortVersions lc l) := by
  intro lc htot htrans l
  refine ⟨sortVersions_perm lc l, (sortVersions_sorted lc htot htrans l).imp ?_⟩
  intro a b hle
  unfold versionLe cmpVersionStrings at hle
  refine ⟨?_, ?_, ?_⟩
  · intro va vb hva hvb
    rw [hva, hvb] at hle
    have hle' : (if compareSemver va vb ≠ 0 then compareSemver va vb
        else lc a b) ≤ 0 := hle
    by_cases h0 : compareSemver va vb = 0
    · rw [h0]
    · rw [if_pos h0] at hle'
      exact hle'
  · intro ha hb
    rw [ha, hb] at hle
    exact hle
  · intro hb
    by_contra ha
    obtain ⟨va, hva⟩ := Option.ne_none_iff_exists'.mp ha
    rw [hva, hb] at hle
    have hle' : (1 : Int) ≤ 0 := hle
    omega

/-- C6 (witness): the amended ordering facts applied at the concrete sample
collation (a total preorder, by the collation order lemmas) and a concrete
list with one unparseable version. -/
theorem sortVersions_spec_witness :
    sortVersions codePointNumericCollation ["1.0.0", "zzz"] = ["zzz", "1.0.0"] ∧
    (sortVersions codePointNumericCollation ["1.0.0", "zzz"]).Perm
      ["1.0.0", "zzz"] :=
  ⟨by decide,
    (sortVersions_spec codePointNumericCollation
      (fun a b => codePointNumericCollation_total a b)
      (fun _ _ _ h1 h2 => codePointNumericCollation_le_trans h1 h2)
      ["1.0.0", "zzz"]).1⟩

/-- C7: adding a (name, version, location-entry) record to the package
index is idempotent with respect to the location identifier: re-adding any
record whose identifier is already present in the (name, version) bucket is
a no-op on the whole index, and for every index state whose bucket holds at
most one entry with that identifier, adding the record once or twice leaves
exactly one entry with that identifier in the bucket. -/
theorem addFoundPackage_dedup_spec :
    ∀ (store : PackageStore) (n v : String) (e : LocationEntry),
      n ≠ "" → v ≠ "" → e.location ≠ "" →
      (∀ e' : LocationEntry, e'.location = e.location →
        addFoundPackage (addFoundPackage store n v e) n v e' =
          addFoundPackage store n v e) ∧
      (countLoc (packageBucket store n v) e.location ≤ 1 →
        countLoc (packageBucket (addFoundPackage store n v e) n v) e.location = 1) ∧
      (countLoc (packageBucket store n v) e.location ≤ 1 →
        countLoc (packageBucket
          (addFoundPackage (addFoundPackage store n v e) n v e) n v)
          e.location = 1) := by
  intro store n v e hn hv he
  have hnoop : ∀ e' : LocationEntry, e'.location = e.location →
      addFoundPackage (addFoundPackage store n v e) n v e' =
        addFoundPackage store n v e := by
    intro e' hsame
    have hne' : e'.location ≠ "" := by
      rw [hsame]
      exact he
    have h1 : addFoundPackage store n v e =
        mapSet store n (mapSet ((mapGet store n).getD []) v
          (addLocationEntry ((mapGet ((mapGet store n).getD []) v).getD []) e)) := by
      unfold addFoundPackage
      rw [if_neg (by simp [hn, hv]), if_neg he]
    rw [h1]
    unfold addFoundPackage
    rw [if_neg (by simp [hn, hv]), if_neg hne']
    simp only [mapGet_mapSet_self, Option.getD_some]
    have hmem : (addLocationEntry
        ((mapGet ((mapGet store n).getD []) v).getD []) e).any
        (fun x => x.location == e'.location) = true := by
      simp only [hsame]
      exact addLocationEntry_mem _ e he
    rw [addLocationEntry_of_mem hmem, mapSet_mapSet, mapSet_mapSet]
  refine ⟨hnoop, fun hinv => ?_, fun hinv => ?_⟩
  · rw [packageBucket_addFoundPackage store n v e hn hv he]
    exact countLoc_addLocationEntry _ e he hinv
  · rw [hnoop e rfl]
    rw [packageBucket_addFoundPackage store n v e hn hv he]
    exact countLoc_addLocationEntry _ e he hinv

/-- C7 (witness): the dedup facts at a concrete record added twice to an
empty index. -/
theorem addFoundPackage_dedup_spec_witness :
    addFoundPackage
        (addFoundPackage [] "lodash" "4.17.21"
          { location := "node_modules/lodash", meta := [] })
        "lodash" "4.17.21" { location := "node_modules/lodash", meta := [] } =
      addFoundPackage [] "lodash" "4.17.21"
        { location := "node_modules/lodash", meta := [] } ∧
    countLoc (packageBucket
        (addFoundPackage [] "lodash" "4.17.21"
          { location := "node_modules/lodash", meta := [] })
        "lodash" "4.17.21") "node_modules/lodash" = 1 := by
  have h := addFoundPackage_dedup_spec [] "lodash" "4.17.21"
    { location := "node_modules/lodash", meta := [] }
    (by decide) (by decide) (by decide)
  exact ⟨h.1 _ rfl, h.2.1 (by decide)⟩

/-- C8: compiling `"1.2.x"` and compiling `"1.2"` produce equal RangeSets —
both expand to `>=1.2.0 <1.3.0` — and the two compiled specifiers are
satisfied by exactly the same version strings. -/
theorem wildcardPatch_equiv_spec :
    (parseVersionRange (some "1.2.x")).sets = (parseVersionRange (some "1.2")).sets ∧
    (parseVersionRange (some "1.2.x")).sets =
      [{ comparators :=
          [{ op := ">=",
             version := { major := 1, minor := 2, patch := 0, prerelease := [],
                          build := [], raw := "1.2.0" } },
           { op := "<",
             version := { major := 1, minor := 3, patch := 0, prerelease := [],
                          build := [], raw := "1.3.0" } }] }] ∧
    ∀ v, satisfiesRange v (parseVersionRange (some "1.2.x")) =
      satisfiesRange v (parseVersionRange (some "1.2")) := by
  have h1 : parseVersionRange (some "1.2.x") =
      { type := "range", raw := some "1.2.x",
        sets := [{ comparators :=
          [{ op := ">=",
             version := { major := 1, minor := 2, patch := 0, prerelease := [],
                          build := [], raw := "1.2.0" } },
           { op := "<",
             version := { major := 1, minor := 3, patch := 0, prerelease := [],
                          build := [], raw := "1.3.0" } }] }],
        exactVersion := none } := by decide
  have h2 : parseVersionRange (some "1.2") =
      { type := "range", raw := some "1.2",
        sets := [{ comparators :=
          [{ op := ">=",
             version := { major := 1, minor := 2, patch := 0, prerelease := [],
                          build := [], raw := "1.2.0" } },
           { op := "<",
             version := { major := 1, minor := 3, patch := 0, prerelease := [],
                          build := [], raw := "1.3.0" } }] }],
        exactVersion := none } := by decide
  refine ⟨by rw [h1, h2], by rw [h1], fun v => ?_⟩
  rw [h1, h2]
  rfl

/-- C8 (witness): the satisfaction equality at a concrete installed
version. -/
theorem wildcardPatch_equiv_spec_witness :
    satisfiesRange "1.2.5" (parseVersionRange (some "1.2.x")) =
      satisfiesRange "1.2.5" (parseVersionRange (some "1.2")) :=
  wildcardPatch_equiv_spec.2.2 "1.2.5"

/-- C9: in every MatchResult — under every host collation `lc` the Matcher
may sort with — the exact flag is true exactly when the compiled specifier
has kind Exact or kind Literal and some installed version satisfied it; for
kind Literal that means some installed version string equalled the literal
text; and exact is always false when no version matched. -/
theorem matchExact_spec :
    ∀ (lc : String → String → Int) (spec : SpecReq) (installed : PackageStore)
      (r : MatchResult),
      r = matchOne lc spec installed →
      (r.found = false → r.exact = false) ∧
      (r.exact = true ↔
        ((r.rangeInfo.type = "exact" ∨ r.rangeInfo.type = "literal") ∧
          ∃ v, v ∈ r.installedVersions ∧ satisfiesRange v r.rangeInfo = true)) ∧
      (r.rangeInfo.type = "literal" →
        (r.exact = true ↔
          ∃ v, v ∈ r.installedVersions ∧ r.rangeInfo.raw = some v)) := by
  intro lc spec installed r hr
  subst hr
  have hri : (matchOne lc spec installed).rangeInfo = matchRangeInfo spec := rfl
  have hins : (matchOne lc spec installed).installedVersions =
      matchInstalledVersions lc spec installed := rfl
  have hfound : (matchOne lc spec installed).found =
      !(matchOne lc spec installed).matchedVersions.isEmpty := rfl
  have hexact : (matchOne lc spec installed).exact =
      (((matchRangeInfo spec).type == "exact" ||
        (matchRangeInfo spec).type == "literal") &&
        !(matchOne lc spec installed).matchedVersions.isEmpty) := rfl
  have hmem : (!(matchOne lc spec installed).matchedVersions.isEmpty) = true ↔
      ∃ v, v ∈ matchInstalledVersions lc spec installed ∧
        satisfiesRange v (matchRangeInfo spec) = true := by
    rw [matchedVersions_eq]
    constructor
    · intro h
      have hne : (matchInstalledVersions lc spec installed).filter
          (fun v => satisfiesRange v (matchRangeInfo spec)) ≠ [] := by
        intro hnil
        rw [hnil] at h
        cases h
      obtain ⟨x, hx⟩ := List.exists_mem_of_ne_nil _ hne
      exact ⟨x, (List.mem_filter.mp hx).1, (List.mem_filter.mp hx).2⟩
    · rintro ⟨v, hv, hs⟩
      have hmemf : v ∈ (matchInstalledVersions lc spec installed).filter
          (fun w => satisfiesRange w (matchRangeInfo spec)) :=
        List.mem_filter.mpr ⟨hv, hs⟩
      have hne : (matchInstalledVersions lc spec installed).filter
          (fun w => satisfiesRange w (matchRangeInfo spec)) ≠ [] := by
        intro hnil
        rw [hnil] at hmemf
        cases hmemf
      simpa [List.isEmpty_iff] using hne
  have hmain : (matchOne lc spec installed).exact = true ↔
      (((matchRangeInfo spec).type = "exact" ∨
        (matchRangeInfo spec).type = "literal") ∧
        ∃ v, v ∈ matchInstalledVersions lc spec installed ∧
          satisfiesRange v (matchRangeInfo spec) = true) := by
    rw [hexact, Bool.and_eq_true, Bool.or_eq_true, beq_iff_eq, beq_iff_eq, hmem]
  refine ⟨?_, ?_, ?_⟩
  · intro hf
    rw [hfound] at hf
    rw [hexact, hf, Bool.and_false]
  · exact hmain
  · intro hlit
    rw [hri] at hlit
    rw [hmain]
    constructor
    · rintro ⟨-, v, hv, hs⟩
      rw [satisfiesRange_literal_raw v _ hlit, beq_iff_eq] at hs
      exact ⟨v, hv, hs⟩
    · rintro ⟨v, hv, hraw⟩
      refine ⟨Or.inr hlit, v, hv, ?_⟩
      rw [satisfiesRange_literal_raw v _ hlit, beq_iff_eq]
      exact hraw

/-- C9 (witness): under the concrete sample collation, a request whose
specifier fell back to Literal and whose text equals an installed version
string reports exact = true. -/
theorem matchExact_spec_witness :
    (matchOne codePointNumericCollation
      { name := "a", version := some "1.2.3.4",
        range := some (parseVersionRange (some "1.2.3.4")) }
      [("a", [("1.2.3.4", [{ location := "l", meta := [] }])])]).exact = true := by
  have h := matchExact_spec codePointNumericCollation
    { name := "a", version := some "1.2.3.4",
      range := some (parseVersionRange (some "1.2.3.4")) }
    [("a", [("1.2.3.4", [{ location := "l", meta := [] }])])] _ rfl
  exact h.2.1.mpr ⟨Or.inr (by decide), "1.2.3.4", by decide, by decide⟩

/-- C10: when parsing the requested-package list, a line is ignored (yields
no request) exactly when its trimmed content is blank, starts with `#`, or
is exactly `---`; every other line produces exactly one request. -/
theorem parseSpec_skip_iff :
    ∀ line : String,
      parseSpec line = none ↔
        (jsTrim line = "" ∨ jsStartsWith (jsTrim line) "#" = true ∨
          jsTrim line = "---") := by
  intro line
  unfold parseSpec
  constructor
  · intro hnone
    by_contra hcon
    push_neg at hcon
    obtain ⟨h1, h2, h3⟩ := hcon
    rw [if_neg (by simp [h1, h3, h2])] at hnone
    cases hs : splitLastChar '@' (jsTrim line).data with
    | none =>
      rw [hs] at hnone
      simp at hnone
    | some p =>
      rw [hs] at hnone
      have hnone' : (if p.1.isEmpty = true then
          some ({ name := jsTrim line, version := none,
                  range := some (parseVersionRange none) } : SpecReq)
        else
          if jsTrim (String.mk p.2) = "" then
            some ({ name := String.mk p.1, version := none,
                    range := some (parseVersionRange none) } : SpecReq)
          else
            some ({ name := String.mk p.1,
                    version := some (jsTrim (String.mk p.2)),
                    range := some (parseVersionRange
                      (some (jsTrim (String.mk p.2)))) } : SpecReq)) = none := hnone
      by_cases hp : p.1.isEmpty = true
      · rw [if_pos hp] at hnone'
        simp at hnone'
      · rw [if_neg hp] at hnone'
        by_cases hv : jsTrim (String.mk p.2) = ""
        · rw [if_pos hv] at hnone'
          simp at hnone'
        · rw [if_neg hv] at hnone'
          simp at hnone'
  · intro hdisj
    rw [if_pos]
    rcases hdisj with h | h | h
    · simp [h]
    · simp [h]
    · simp [h]

/-- C10 (witness): a `---` separator line (with surrounding blanks) is
ignored, while an ordinary request line is not. -/
theorem parseSpec_skip_iff_witness :
    parseSpec " --- " = none ∧ parseSpec "lodash@^4.17.0" ≠ none := by
  refine ⟨(parseSpec_skip_iff " --- ").mpr (Or.inr (Or.inr (by decide))), fun h => ?_⟩
  rcases (parseSpec_skip_iff "lodash@^4.17.0").mp h with h1 | h1 | h1
  · exact absurd h1 (by decide)
  · exact absurd h1 (by decide)
  · exact absurd h1 (by decide)

end FindPackages

